import Mathlib

/-!
Verification of a replicated multi-version distributed database
implementing Serializable Snapshot Isolation (SSI) with the
Available Copies replication protocol.

The definitions below are a shallow embedding of the Python sources
(`src/models.py`, `src/site_manager.py`, `src/transaction_manager.py`,
`src/main.py`).  Variables `x1..x20` are identified by their integer
index (the Python code keys them by the string `"x" ++ toString i` and
always recovers the index with `int(var_name[1:])`, so the two keyings
are in bijection).  Python dictionaries are modelled as association
lists that preserve insertion order (an update of an existing key keeps
its position, a new key is appended at the end, exactly as Python
dictionaries behave); Python sets of site identifiers are modelled as
duplicate-free lists.  Printed lines are modelled by an `OutputLine`
trace carried in the state.
-/

set_option maxHeartbeats 1000000

/-! ### Association-list helpers (Python `dict` semantics) -/

/-- Lookup in an insertion-ordered association list. -/
def alookup {α β : Type} [DecidableEq α] (l : List (α × β)) (k : α) : Option β :=
  (l.find? (fun p => decide (p.1 = k))).map (fun p => p.2)

/-- `d[k] = v` on a Python dict: overwrite in place, or append a new key. -/
def aupsert {α β : Type} [DecidableEq α] : List (α × β) → α → β → List (α × β)
  | [], k, v => [(k, v)]
  | p :: rest, k, v => if p.1 = k then (k, v) :: rest else p :: aupsert rest k v

/-- `d[k] = g d.get(k, dflt)` on a Python (default)dict. -/
def amodify {α β : Type} [DecidableEq α] : List (α × β) → α → β → (β → β) → List (α × β)
  | [], k, dflt, g => [(k, g dflt)]
  | p :: rest, k, dflt, g =>
    if p.1 = k then (k, g p.2) :: rest else p :: amodify rest k dflt g

/-- `d[k].append x` on a Python `defaultdict(list)`. -/
def aappend {α γ : Type} [DecidableEq α] (l : List (α × List γ)) (k : α) (x : γ) :
    List (α × List γ) :=
  amodify l k [] (fun xs => xs ++ [x])

/-- `s.add x` on a Python set (modelled as a duplicate-free list). -/
def sinsert {α : Type} [DecidableEq α] (l : List α) (x : α) : List α :=
  if x ∈ l then l else l ++ [x]

/-! ### Data model (`src/models.py`) -/

/-- Status of a transaction (`TransactionStatus` in `models.py`). -/
inductive TransactionStatus : Type
  | active
  | committed
  | aborted
  | waiting
deriving DecidableEq, Repr

/-- One committed version of a variable (`VariableVersion` in `models.py`). -/
structure VariableVersion : Type where
  value : Int
  commit_time : Nat
  transaction_id : String
deriving DecidableEq, Repr

/-- A variable stored at a site (`Variable` in `models.py`).  The Python
`name` field is the string `"x" ++ toString index` and is omitted. -/
structure Variable : Type where
  index : Nat
  versions : List VariableVersion
  is_readable : Bool
deriving DecidableEq, Repr

/-- `Variable.get_value_at_time`: first version (newest first) whose
commit time is at most the timestamp. -/
def Variable.get_value_at_time (var : Variable) (timestamp : Nat) : Option Int :=
  (var.versions.find? (fun ver => decide (ver.commit_time ≤ timestamp))).map
    (fun ver => ver.value)

/-- `Variable.get_latest_value`. -/
def Variable.get_latest_value (var : Variable) : Option Int :=
  var.versions.head?.map (fun ver => ver.value)

/-! ### Sites (`src/site_manager.py`) -/

/-- Failure window entry for a site (`FailureRecord`). -/
structure FailureRecord : Type where
  fail_time : Nat
  recover_time : Option Nat
deriving DecidableEq, Repr

/-- A single site / data manager (`Site`). -/
structure Site : Type where
  site_id : Nat
  is_up : Bool
  vars : List Variable
  failure_history : List FailureRecord
deriving DecidableEq, Repr

/-- Look a variable up by index in a site's store
(`var_name in self.variables` / `self.variables[var_name]`). -/
def Site.lookup_variable (s : Site) (v : Nat) : Option Variable :=
  s.vars.find? (fun w => decide (w.index = v))

/-- `Site.has_variable`. -/
def Site.has_variable (s : Site) (v : Nat) : Bool :=
  (s.lookup_variable v).isSome

/-- `Site._initialize_variables`: even-indexed variables everywhere, odd
variable `x i` only at site `1 + (i % 10)`; each `x i` starts with one
version `(10 * i, 0, "init")` and is readable. -/
def initial_variables (site_id : Nat) : List Variable :=
  (List.range 20).filterMap (fun k =>
    let i := k + 1
    if i % 2 = 0 then
      some ⟨i, [⟨10 * i, 0, "init"⟩], true⟩
    else if site_id = 1 + (i % 10) then
      some ⟨i, [⟨10 * i, 0, "init"⟩], true⟩
    else none)

/-- `Site.__init__`. -/
def Site.init (site_id : Nat) : Site :=
  ⟨site_id, true, initial_variables site_id, []⟩

/-- `Site.fail`: mark down and append an open failure record. -/
def Site.fail (s : Site) (timestamp : Nat) : Site :=
  { s with is_up := false,
           failure_history := s.failure_history ++ [⟨timestamp, none⟩] }

/-- Close the last failure record with the given recovery time
(`self.failure_history[-1].recover_time = timestamp`). -/
def set_last_recover : List FailureRecord → Nat → List FailureRecord
  | [], _ => []
  | [r], t => [{ r with recover_time := some t }]
  | r :: rest, t => r :: set_last_recover rest t

/-- `Site.recover`: mark up, close the last failure record, clear the
readability flag of every even-indexed (replicated) variable. -/
def Site.recover (s : Site) (timestamp : Nat) : Site :=
  { s with is_up := true,
           failure_history := set_last_recover s.failure_history timestamp,
           vars := s.vars.map (fun var =>
             if var.index % 2 = 0 then { var with is_readable := false } else var) }

/-- `Site.was_up_continuously`: the per-record test of the Python loop.
A record causes failure if it started strictly inside `(from, to)` or if
it started at or before `from` and had not recovered by `from`. -/
def failure_record_ok (r : FailureRecord) (from_time to_time : Nat) : Bool :=
  if from_time < r.fail_time ∧ r.fail_time < to_time then false
  else if r.fail_time ≤ from_time then
    match r.recover_time with
    | none => false
    | some rt => decide (rt ≤ from_time)
  else true

/-- `Site.was_up_continuously`. -/
def Site.was_up_continuously (s : Site) (from_time to_time : Nat) : Bool :=
  s.failure_history.all (fun r => failure_record_ok r from_time to_time)

/-- `Site.get_last_recovery_time`: recovery time of the most recent
failure record, `0` if there is none or it is still open.  (Python uses
the truthiness of `recover_time`, which agrees with this on `0`.) -/
def Site.get_last_recovery_time (s : Site) : Nat :=
  match s.failure_history.getLast? with
  | none => 0
  | some r =>
    match r.recover_time with
    | none => 0
    | some t => t

/-- The newest-first version walk of `Site.can_read_variable` for a
replicated variable: stop at the first version with
`commit_time ≤ txn_start`; return it only if the site was continuously
up from that commit through the transaction start, otherwise give up
without consulting older versions (the Python `break`). -/
def Site.can_read_loop (s : Site) (txn_start : Nat) :
    List VariableVersion → Bool × Option Int
  | [] => (false, none)
  | ver :: rest =>
    if ver.commit_time ≤ txn_start then
      if s.was_up_continuously ver.commit_time txn_start then (true, some ver.value)
      else (false, none)
    else s.can_read_loop txn_start rest

/-- `Site.can_read_variable`. -/
def Site.can_read_variable (s : Site) (v : Nat) (txn_start : Nat) :
    Bool × Option Int :=
  if s.is_up = false then (false, none)
  else
    match s.lookup_variable v with
    | none => (false, none)
    | some var =>
      if v % 2 = 1 then
        let value := var.get_value_at_time txn_start
        (value.isSome, value)
      else
        let last_recovery := s.get_last_recovery_time
        if (last_recovery > 0 ∧ txn_start ≥ last_recovery) ∧ var.is_readable = false then
          (false, none)
        else
          s.can_read_loop txn_start var.versions

/-- `Site.write_variable`: prepend the committed version and set the
readability flag; a site that does not store the variable is unchanged. -/
def Site.write_variable (s : Site) (v : Nat) (value : Int) (commit_time : Nat)
    (txn_id : String) : Site :=
  if s.has_variable v = false then s
  else
    { s with vars := s.vars.map (fun var =>
        if var.index = v then
          { var with versions := ⟨value, commit_time, txn_id⟩ :: var.versions,
                     is_readable := true }
        else var) }

/-- `Site.get_committed_value`. -/
def Site.get_committed_value (s : Site) (v : Nat) : Option Int :=
  (s.lookup_variable v).bind (fun var => var.get_latest_value)

/-- `Site.dump`: variables (in index order, which is the storage order)
with their latest committed values. -/
def Site.dump (s : Site) : List (Nat × Int) :=
  s.vars.filterMap (fun var =>
    (var.get_latest_value).map (fun value => (var.index, value)))

/-! ### Site manager (`SiteManager`) -/

/-- `SiteManager.__init__`: sites 1..10. -/
def init_sites : List Site :=
  (List.range 10).map (fun k => Site.init (k + 1))

/-- `SiteManager.get_site`. -/
def get_site (sites : List Site) (sid : Nat) : Option Site :=
  sites.find? (fun s => decide (s.site_id = sid))

/-- `SiteManager.get_sites_for_variable`: every site for an even index,
site `1 + (v % 10)` for an odd index. -/
def sites_for_variable (v : Nat) : List Nat :=
  if v % 2 = 0 then (List.range 10).map (fun k => k + 1)
  else [1 + (v % 10)]

/-- `SiteManager.get_up_sites_for_variable`. -/
def up_sites_for_variable (sites : List Site) (v : Nat) : List Nat :=
  (sites_for_variable v).filter (fun sid =>
    match get_site sites sid with
    | some s => s.is_up
    | none => false)

/-- `SiteManager.is_variable_replicated`. -/
def is_variable_replicated (v : Nat) : Bool :=
  v % 2 = 0

example : Site.can_read_variable (Site.init 2) 1 0 = (true, some 10) := by decide
example : Site.can_read_variable (Site.init 2) 3 0 = (false, none) := by decide
example : Site.can_read_variable ((Site.init 2).fail 1) 2 5 = (false, none) := by decide
example : sites_for_variable 3 = [4] := by decide
example : (Site.init 1).dump =
    [(2, 20), (4, 40), (6, 60), (8, 80), (10, 100), (12, 120),
     (14, 140), (16, 160), (18, 180), (20, 200)] := by decide
example : (Site.init 2).dump =
    [(1, 10), (2, 20), (4, 40), (6, 60), (8, 80), (10, 100), (11, 110),
     (12, 120), (14, 140), (16, 160), (18, 180), (20, 200)] := by decide

/-! ### Transactions and transaction-manager state
(`src/models.py`, `src/transaction_manager.py`) -/

/-- The abort causes of `TransactionManager._abort_transaction`,
identifying the Python reason strings:
`no_valid_replica` = "No site has valid data for ... ",
`waiting_at_end` = "Transaction was waiting and ended",
`site_failed_after_write` = "Site ... failed after transaction wrote to it",
`first_committer_wins` = "First committer wins: ...",
`ssi_dangerous_cycle` = "SSI cycle with consecutive RW edges detected". -/
inductive AbortReason : Type
  | no_valid_replica
  | waiting_at_end
  | site_failed_after_write
  | first_committer_wins
  | ssi_dangerous_cycle
deriving DecidableEq, Repr

/-- A transaction (`Transaction` in `models.py`).
`read_set` maps a variable to `(value, site_id)`, `write_set` maps a
variable to `(value, sites_at_write_time)`. -/
structure Transaction : Type where
  tid : String
  start_time : Nat
  status : TransactionStatus
  read_set : List (Nat × Int × Nat)
  write_set : List (Nat × Int × List Nat)
  sites_accessed : List Nat
  sites_written : List Nat
  site_first_access_time : List (Nat × Nat)
  site_write_time : List (Nat × Nat)
  abort_reason : Option AbortReason
  waiting_for : Option Nat
deriving DecidableEq, Repr

/-- A parked read (`WaitingOperation` in `models.py`). -/
structure WaitingOperation : Type where
  transaction_id : String
  variable_name : Nat
  required_sites : List Nat
deriving DecidableEq, Repr

/-- One printed line of the system (the `print` calls of the sources).
`dump_line site vals` stands for "site i - x1: v, ...". -/
inductive OutputLine : Type
  | begins (tid : String)
  | read_value (v : Nat) (value : Int)
  | writes (tid : String) (v : Nat) (value : Int) (sites : List Nat)
  | writes_no_sites (tid : String) (v : Nat) (value : Int)
  | commits (tid : String)
  | aborts (tid : String)
  | aborts_still_waiting (tid : String)
  | waiting_for_var (tid : String) (v : Nat)
  | site_failed (sid : Nat)
  | site_recovered (sid : Nat)
  | dump_line (sid : Nat) (vals : List (Nat × Int))
  | error_txn_not_found (tid : String)
deriving DecidableEq, Repr

/-- The whole `TransactionManager` state: the ten sites of its
`SiteManager`, the transaction table, the logical clock, the queue of
waiting reads, the per-variable commit history (`(commit_time, tid)`
entries), the RW edge map (`edges[from][to] = "RW"`), the snapshot-reads
map (`tid -> var -> writer`), and the trace of printed lines. -/
structure TMState : Type where
  sites : List Site
  transactions : List (String × Transaction)
  current_time : Nat
  waiting_operations : List WaitingOperation
  variable_commit_history : List (Nat × List (Nat × String))
  edges : List (String × List (String × String))
  snapshot_reads : List (String × List (Nat × String))
  output : List OutputLine
deriving DecidableEq, Repr

/-- Status of a transaction by id, if registered. -/
def transaction_status (s : TMState) (tid : String) : Option TransactionStatus :=
  (alookup s.transactions tid).map (fun t => t.status)

/-- In-place update of one transaction record (Python mutates the
`Transaction` object held in the dict). -/
def update_transaction (s : TMState) (tid : String) (f : Transaction → Transaction) :
    TMState :=
  { s with transactions := s.transactions.map (fun p =>
      if p.1 = tid then (p.1, f p.2) else p) }

/-- Append one printed line. -/
def emit (s : TMState) (line : OutputLine) : TMState :=
  { s with output := s.output ++ [line] }

/-- `edges[from][to] = "RW"`. -/
def set_edge (edges : List (String × List (String × String))) (src dst : String) :
    List (String × List (String × String)) :=
  amodify edges src [] (fun es => aupsert es dst "RW")

/-- `TransactionManager.begin_transaction`. -/
def tm_begin (s : TMState) (tid : String) : TMState :=
  let txn : Transaction :=
    ⟨tid, s.current_time, TransactionStatus.active, [], [], [], [], [], [], none, none⟩
  emit { s with transactions := aupsert s.transactions tid txn } (OutputLine.begins tid)

/-- `TransactionManager._get_snapshot_writer`: latest committed writer of
the variable at or before the snapshot time, `"init"` if none. -/
def get_snapshot_writer (s : TMState) (v : Nat) (txn_start : Nat) : String :=
  let commits := (alookup s.variable_commit_history v).getD []
  (commits.foldl (fun acc p =>
      if p.1 ≤ txn_start ∧ p.1 > acc.2 then (p.2, p.1) else acc)
    ("init", 0)).1

/-- `TransactionManager._check_rw_on_read`: for every other transaction
that is neither aborted nor committed and has the variable in its write
set, add `reader --RW--> other`. -/
def check_rw_on_read (s : TMState) (reader_tid : String) (v : Nat) : TMState :=
  { s with edges := s.transactions.foldl (fun es p =>
      if p.1 = reader_tid then es
      else if p.2.status = TransactionStatus.aborted ∨
              p.2.status = TransactionStatus.committed then es
      else if (alookup p.2.write_set v).isSome then set_edge es reader_tid p.1
      else es) s.edges }

/-- `TransactionManager._check_dependencies_on_write`: for every other
transaction that is neither aborted nor committed and has the variable in
its read set, add `other --RW--> writer`. -/
def check_dependencies_on_write (s : TMState) (writer_tid : String) (v : Nat) : TMState :=
  { s with edges := s.transactions.foldl (fun es p =>
      if p.1 = writer_tid then es
      else if p.2.status = TransactionStatus.aborted ∨
              p.2.status = TransactionStatus.committed then es
      else if (alookup p.2.read_set v).isSome then set_edge es p.1 writer_tid
      else es) s.edges }

/-- `TransactionManager._abort_transaction`: mark aborted, drop the
transaction's waiting operations, and purge all of its outgoing and
incoming edges. -/
def abort_transaction (s : TMState) (tid : String) (reason : AbortReason) : TMState :=
  match alookup s.transactions tid with
  | none => s
  | some _ =>
    let s := update_transaction s tid (fun t =>
      { t with status := TransactionStatus.aborted, abort_reason := some reason })
    let s := { s with
      waiting_operations :=
        s.waiting_operations.filter (fun op => decide (op.transaction_id ≠ tid)) }
    { s with
      edges :=
        (s.edges.filter (fun p => decide (p.1 ≠ tid))).map (fun p =>
          (p.1, p.2.filter (fun q => decide (q.1 ≠ tid)))) }

/-- The final branch of `TransactionManager.read`: park the read.  The
Python code prints the waiting line, sets the status to waiting, records
`waiting_for`, and enqueues a waiting operation whose `required_sites`
are all sites hosting the variable. -/
def park_read (s : TMState) (tid : String) (v : Nat) (sites : List Nat) :
    Option Int × TMState :=
  let s := emit s (OutputLine.waiting_for_var tid v)
  let s := update_transaction s tid (fun t =>
    { t with status := TransactionStatus.waiting, waiting_for := some v })
  (none, { s with
    waiting_operations := s.waiting_operations ++ [⟨tid, v, sites⟩] })

/-- The "does any site still hold a valid snapshot version" test of
`TransactionManager.read` for a replicated variable with no currently
readable site: some host has a first version with
`commit_time ≤ start` and was continuously up from that commit through
the start (the Python double loop with its two `break`s examines only
the first version with `commit_time ≤ start` of each site). -/
def any_valid_site (s : TMState) (v : Nat) (txn_start : Nat) (sites : List Nat) : Bool :=
  sites.any (fun sid =>
    match get_site s.sites sid with
    | some site =>
      match site.lookup_variable v with
      | some var =>
        match var.versions.find? (fun ver => decide (ver.commit_time ≤ txn_start)) with
        | some ver => site.was_up_continuously ver.commit_time txn_start
        | none => false
      | none => false
    | none => false)

/-- `TransactionManager.read`.  Returns the value (as the Python method
does) together with the successor state. -/
def tm_read (s : TMState) (tid : String) (v : Nat) : Option Int × TMState :=
  match alookup s.transactions tid with
  | none => (none, emit s (OutputLine.error_txn_not_found tid))
  | some txn =>
    if txn.status = TransactionStatus.aborted then (none, s)
    else
      match alookup txn.write_set v with
      | some pv => (some pv.1, emit s (OutputLine.read_value v pv.1))
      | none =>
        match alookup txn.read_set v with
        | some pv => (some pv.1, emit s (OutputLine.read_value v pv.1))
        | none =>
          let sites := sites_for_variable v
          let readable_sites := sites.filterMap (fun sid =>
            match get_site s.sites sid with
            | some site =>
              if site.is_up then
                match site.can_read_variable v txn.start_time with
                | (true, some value) => some (sid, value)
                | _ => none
              else none
            | none => none)
          match readable_sites with
          | (sid, value) :: _ =>
            let s := update_transaction s tid (fun t =>
              { t with
                read_set := aupsert t.read_set v (value, sid),
                sites_accessed := sinsert t.sites_accessed sid,
                site_first_access_time :=
                  if (alookup t.site_first_access_time sid).isSome then
                    t.site_first_access_time
                  else aupsert t.site_first_access_time sid s.current_time })
            let writer := get_snapshot_writer s v txn.start_time
            let s := { s with
              snapshot_reads :=
                amodify s.snapshot_reads tid [] (fun m => aupsert m v writer) }
            let s := check_rw_on_read s tid v
            (some value, emit s (OutputLine.read_value v value))
          | [] =>
            if is_variable_replicated v then
              if any_valid_site s v txn.start_time sites = false then
                let s := abort_transaction s tid AbortReason.no_valid_replica
                (none, emit s (OutputLine.aborts tid))
              else park_read s tid v sites
            else park_read s tid v sites

/-- `TransactionManager.write`: buffer the write with the currently up
hosts, merge them into the per-site bookkeeping, record first access and
first write times, add RW edges from concurrent readers, and print the
advisory line. -/
def tm_write (s : TMState) (tid : String) (v : Nat) (value : Int) : TMState :=
  match alookup s.transactions tid with
  | none => emit s (OutputLine.error_txn_not_found tid)
  | some txn =>
    if txn.status = TransactionStatus.aborted then s
    else
      let up_sites := up_sites_for_variable s.sites v
      let s := update_transaction s tid (fun t =>
        { t with
          write_set := aupsert t.write_set v (value, up_sites),
          sites_written := up_sites.foldl sinsert t.sites_written,
          sites_accessed := up_sites.foldl sinsert t.sites_accessed,
          site_first_access_time := up_sites.foldl (fun m sid =>
            if (alookup m sid).isSome then m else aupsert m sid s.current_time)
            t.site_first_access_time,
          site_write_time := up_sites.foldl (fun m sid =>
            if (alookup m sid).isSome then m else aupsert m sid s.current_time)
            t.site_write_time })
      let s := check_dependencies_on_write s tid v
      if up_sites.isEmpty then emit s (OutputLine.writes_no_sites tid v value)
      else emit s (OutputLine.writes tid v value up_sites)

/-! ### Commit validation (`TransactionManager.end_transaction`) -/

/-- Validation rule 1 of `end_transaction` (Available Copies): some site
the transaction wrote to has a failure record strictly after the
transaction's first write time at that site (defaulting to the
transaction's start time, as `site_write_time.get(site_id,
txn.start_time)` does). -/
def site_failure_violation (s : TMState) (txn : Transaction) : Bool :=
  txn.sites_written.any (fun sid =>
    match get_site s.sites sid with
    | some site =>
      let write_time := (alookup txn.site_write_time sid).getD txn.start_time
      site.failure_history.any (fun r => decide (r.fail_time > write_time))
    | none => false)

/-- Validation rule 2 of `end_transaction` (First Committer Wins): some
variable of the write set has a commit-history entry strictly after the
transaction's start written by another transaction. -/
def first_committer_violation (s : TMState) (txn : Transaction) (tid : String) : Bool :=
  txn.write_set.any (fun p =>
    ((alookup s.variable_commit_history p.1).getD []).any (fun q =>
      decide (q.1 > txn.start_time ∧ q.2 ≠ tid)))

/-- Total number of stored edge targets, used to bound the DFS fuel. -/
def edge_count (edges : List (String × List (String × String))) : Nat :=
  edges.foldl (fun acc p => acc + p.2.length) 0

/-- A fuel bound that exceeds the number of worklist steps any of the
DFS traversals below can take on this state. -/
def dfs_fuel (s : TMState) : Nat :=
  2 * (s.transactions.length + s.edges.length + edge_count s.edges + 2)

/-- `TransactionManager._can_reach_from_tid`: depth-first search over the
stored edges with a shared visited set.  The Python function recurses
over the graph, marking each node visited on entry and returning as soon
as the target is reached; the embedding performs the identical
depth-first traversal with an explicit worklist (children are pushed in
front in edge order, so nodes are taken in the very same preorder, and
the visited check happens when a node is taken — exactly when the
corresponding Python call would begin) plus a fuel argument so that the
recursion is structural.  Callers pass `dfs_fuel`, which exceeds the
number of worklist steps the traversal can perform, so the fuel never
runs out. -/
def can_reach_from (edges : List (String × List (String × String))) :
    Nat → List String → String → List String → Bool
  | 0, _, _, _ => false
  | Nat.succ _, [], _, _ => false
  | Nat.succ fuel, src :: stack, dst, visited =>
    if src = dst then true
    else if src ∈ visited then can_reach_from edges fuel stack dst visited
    else
      can_reach_from edges fuel
        ((((alookup edges src).getD []).map Prod.fst) ++ stack) dst (src :: visited)

/-- `TransactionManager._can_reach_via_committed`: reachability from a
committed transaction through stored edges plus the inferred WR edges of
the snapshot-reads map, traversed with the same worklist discipline as
`can_reach_from`.  The Python function tests the inferred WR edge (does
`dst` hold a snapshot read written by the current node?) after its child
loop returns false; since a true answer from either test makes every
call on the stack return true, testing the WR edge before expanding the
children yields the same boolean. -/
def can_reach_via_committed (s : TMState) :
    Nat → List String → String → List String → Bool
  | 0, _, _, _ => false
  | Nat.succ _, [], _, _ => false
  | Nat.succ fuel, src :: stack, dst, visited =>
    if src = dst then true
    else if src ∈ visited then can_reach_via_committed s fuel stack dst visited
    else
      let visited := src :: visited
      match alookup s.transactions src, alookup s.transactions dst with
      | some from_txn, some to_txn =>
        if from_txn.status = TransactionStatus.committed then
          if to_txn.read_set.any (fun p =>
              decide (alookup ((alookup s.snapshot_reads dst).getD []) p.1 = some src))
          then true
          else
            can_reach_via_committed s fuel
              ((((alookup s.edges src).getD []).map Prod.fst) ++ stack) dst visited
        else can_reach_via_committed s fuel stack dst visited
      | _, _ => can_reach_via_committed s fuel stack dst visited

/-- `TransactionManager._would_create_dangerous_cycle`. -/
def would_create_dangerous_cycle (s : TMState) (tid : String) : Bool :=
  match alookup s.transactions tid with
  | none => false
  | some txn =>
    let fuel := dfs_fuel s
    let part1 := txn.write_set.any (fun p =>
      ((alookup s.variable_commit_history p.1).getD []).any (fun q =>
        if q.2 = tid then false
        else
          match alookup s.transactions q.2 with
          | some committed_txn =>
            if committed_txn.status = TransactionStatus.committed then
              can_reach_from s.edges fuel [tid] q.2 []
            else false
          | none => false))
    if part1 then true
    else
      let incoming_rw := s.edges.filterMap (fun p =>
        match alookup p.2 tid with
        | some lbl =>
          if lbl = "RW" then
            match alookup s.transactions p.1 with
            | some other =>
              if other.status = TransactionStatus.committed then some p.1 else none
            | none => none
          else none
        | none => none)
      let outgoing_rw := ((alookup s.edges tid).getD []).filterMap (fun q =>
        if q.2 = "RW" then
          match alookup s.transactions q.1 with
          | some target =>
            if target.status = TransactionStatus.committed then some q.1 else none
          | none => none
        else none)
      if incoming_rw.any (fun i => outgoing_rw.any (fun o =>
          can_reach_via_committed s fuel [o] i [])) then true
      else
        let active_incoming_rw := s.edges.filterMap (fun p =>
          match alookup p.2 tid with
          | some lbl =>
            if lbl = "RW" then
              match alookup s.transactions p.1 with
              | some other =>
                if other.status = TransactionStatus.active then some p.1 else none
              | none => none
            else none
          | none => none)
        active_incoming_rw.any (fun i => outgoing_rw.any (fun o =>
          can_reach_via_committed s fuel [o] i []))

/-- One iteration of the commit loop of
`TransactionManager._commit_transaction`: apply the buffered write of
one variable to the intersection of its recorded write sites with the
currently up hosts (creating a version stamped with the commit time) and
append the `(commit_time, tid)` entry to the commit history of that
variable. -/
def commit_apply (commit_time : Nat) (tid : String) (s' : TMState)
    (p : Nat × Int × List Nat) : TMState :=
  let current_up := up_sites_for_variable s'.sites p.1
  let targets := p.2.2.filter (fun sid => decide (sid ∈ current_up))
  let s' := { s' with sites := s'.sites.map (fun (site : Site) =>
    if site.site_id ∈ targets then
      site.write_variable p.1 p.2.1 commit_time tid
    else site) }
  { s' with variable_commit_history :=
      aappend s'.variable_commit_history p.1 (commit_time, tid) }

/-- `TransactionManager._commit_transaction`: apply each buffered write
via `commit_apply`, then mark the transaction committed. -/
def commit_transaction (s : TMState) (tid : String) : TMState :=
  match alookup s.transactions tid with
  | none => s
  | some txn =>
    let s := txn.write_set.foldl (commit_apply s.current_time tid) s
    update_transaction s tid (fun t => { t with status := TransactionStatus.committed })

/-- `TransactionManager.end_transaction`. -/
def end_transaction (s : TMState) (tid : String) : TMState :=
  match alookup s.transactions tid with
  | none => emit s (OutputLine.error_txn_not_found tid)
  | some txn =>
    if txn.status = TransactionStatus.aborted then emit s (OutputLine.aborts tid)
    else if txn.status = TransactionStatus.waiting then
      abort_transaction (emit s (OutputLine.aborts_still_waiting tid)) tid
        AbortReason.waiting_at_end
    else if site_failure_violation s txn then
      emit (abort_transaction s tid AbortReason.site_failed_after_write)
        (OutputLine.aborts tid)
    else if first_committer_violation s txn tid then
      emit (abort_transaction s tid AbortReason.first_committer_wins)
        (OutputLine.aborts tid)
    else if would_create_dangerous_cycle s tid then
      emit (abort_transaction s tid AbortReason.ssi_dangerous_cycle)
        (OutputLine.aborts tid)
    else
      emit (commit_transaction s tid) (OutputLine.commits tid)

/-! ### Failure, recovery and waiting-read resumption -/

/-- The site loop of `TransactionManager._try_read`: the first site of
the list that is up and answers the snapshot read, with its value. -/
def scan_readable (s : TMState) (txn_start : Nat) (v : Nat) (sites : List Nat) :
    Option (Nat × Int) :=
  sites.findSome? (fun sid =>
    match get_site s.sites sid with
    | some site =>
      if site.is_up then
        match site.can_read_variable v txn_start with
        | (true, some value) => some (sid, value)
        | _ => none
      else none
    | none => none)

/-- `TransactionManager._try_read`: first hosting site that is up and
answers the snapshot read; on success record the read, the accessed
site, the snapshot writer and the RW edges, and print the value (the
Python helper, unlike `read`, records no first-access time). -/
def try_read (s : TMState) (tid : String) (v : Nat) : Option Int × TMState :=
  match alookup s.transactions tid with
  | none => (none, s)
  | some txn =>
    match scan_readable s txn.start_time v (sites_for_variable v) with
    | some (sid, value) =>
      let s := update_transaction s tid (fun t =>
        { t with
          read_set := aupsert t.read_set v (value, sid),
          sites_accessed := sinsert t.sites_accessed sid })
      let writer := get_snapshot_writer s v txn.start_time
      let s := { s with
        snapshot_reads :=
          amodify s.snapshot_reads tid [] (fun m => aupsert m v writer) }
      let s := check_rw_on_read s tid v
      (some value, emit s (OutputLine.read_value v value))
    | none => (none, s)

/-- The loop of `TransactionManager._process_waiting_operations`,
accumulating the records that stay queued. -/
def process_waiting_go :
    TMState → List WaitingOperation → List WaitingOperation →
    TMState × List WaitingOperation
  | s, [], still => (s, still)
  | s, op :: rest, still =>
    match transaction_status s op.transaction_id with
    | some TransactionStatus.waiting =>
      let r := try_read s op.transaction_id op.variable_name
      match r.1 with
      | some _ =>
        let s' := update_transaction r.2 op.transaction_id (fun t =>
          { t with status := TransactionStatus.active, waiting_for := none })
        process_waiting_go s' rest still
      | none => process_waiting_go r.2 rest (still ++ [op])
    | _ => process_waiting_go s rest still

/-- `TransactionManager._process_waiting_operations`. -/
def process_waiting_operations (s : TMState) : TMState :=
  let r := process_waiting_go s s.waiting_operations []
  { r.1 with waiting_operations := r.2 }

/-- `TransactionManager.fail_site` / `SiteManager.fail_site`: only a
known site is failed (and announced). -/
def tm_fail_site (s : TMState) (sid : Nat) : TMState :=
  if (get_site s.sites sid).isSome then
    emit { s with sites := s.sites.map (fun site =>
      if site.site_id = sid then site.fail s.current_time else site) }
      (OutputLine.site_failed sid)
  else s

/-- `TransactionManager.recover_site`: recover the site (if known) and
then always try to drain the waiting queue. -/
def tm_recover_site (s : TMState) (sid : Nat) : TMState :=
  let s :=
    if (get_site s.sites sid).isSome then
      emit { s with sites := s.sites.map (fun site =>
        if site.site_id = sid then site.recover s.current_time else site) }
        (OutputLine.site_recovered sid)
    else s
  process_waiting_operations s

/-- `TransactionManager.dump` / `SiteManager.dump_all`: one line per site
with a non-empty variable set. -/
def tm_dump (s : TMState) : TMState :=
  { s with output := s.output ++ s.sites.filterMap (fun site =>
      let vals := site.dump
      if vals.isEmpty then none else some (OutputLine.dump_line site.site_id vals)) }

/-! ### The command loop (`src/main.py`) -/

/-- One input line of the driver. -/
inductive Command : Type
  | begin_txn (tid : String)
  | read_cmd (tid : String) (v : Nat)
  | write_cmd (tid : String) (v : Nat) (value : Int)
  | end_txn (tid : String)
  | fail_cmd (sid : Nat)
  | recover_cmd (sid : Nat)
  | dump_cmd
deriving DecidableEq, Repr

/-- Dispatch of `process_line` after the clock tick. -/
def dispatch (s : TMState) : Command → TMState
  | Command.begin_txn tid => tm_begin s tid
  | Command.read_cmd tid v => (tm_read s tid v).2
  | Command.write_cmd tid v value => tm_write s tid v value
  | Command.end_txn tid => end_transaction s tid
  | Command.fail_cmd sid => tm_fail_site s sid
  | Command.recover_cmd sid => tm_recover_site s sid
  | Command.dump_cmd => tm_dump s

/-- `process_line`: every input line first advances the logical clock by
one, then dispatches. -/
def step (s : TMState) (c : Command) : TMState :=
  dispatch { s with current_time := s.current_time + 1 } c

/-- The state of a fresh `TransactionManager`. -/
def initial_state : TMState :=
  ⟨init_sites, [], 0, [], [], [], [], []⟩

/-- Run a list of commands from a given state. -/
def run_from (s : TMState) (cmds : List Command) : TMState :=
  cmds.foldl step s

/-- Run a list of commands from the initial state. -/
def run (cmds : List Command) : TMState :=
  run_from initial_state cmds

/-! ### Lemmas about the association-list helpers -/

theorem alookup_nil {α β : Type} [DecidableEq α] (k : α) :
    alookup ([] : List (α × β)) k = none := rfl

theorem alookup_cons {α β : Type} [DecidableEq α] (p : α × β) (l : List (α × β)) (k : α) :
    alookup (p :: l) k = if p.1 = k then some p.2 else alookup l k := by
  by_cases h : p.1 = k <;> simp [alookup, List.find?_cons, h]

theorem alookup_aupsert {α β : Type} [DecidableEq α] (l : List (α × β)) (k : α) (v : β)
    (k' : α) : alookup (aupsert l k v) k' = if k' = k then some v else alookup l k' := by
  induction l with
  | nil =>
    simp only [aupsert, alookup_cons, alookup_nil]
    by_cases h : k' = k
    · subst h; simp
    · simp [h, Ne.symm h]
  | cons p rest ih =>
    by_cases hp : p.1 = k
    · subst hp
      simp only [aupsert, if_pos rfl]
      by_cases h : k' = p.1
      · subst h; simp [alookup_cons]
      · simp [alookup_cons, h, Ne.symm h]
    · simp only [aupsert, if_neg hp, alookup_cons, ih]
      by_cases h : k' = k
      · subst h
        simp [fun hc : p.1 = k' => hp hc]
      · simp [h]

theorem alookup_amodify {α β : Type} [DecidableEq α] (l : List (α × β)) (k : α) (d : β)
    (g : β → β) (k' : α) :
    alookup (amodify l k d g) k' =
      if k' = k then some (g ((alookup l k).getD d)) else alookup l k' := by
  induction l with
  | nil =>
    simp only [amodify, alookup_cons, alookup_nil]
    by_cases h : k' = k
    · subst h; simp
    · simp [h, Ne.symm h]
  | cons p rest ih =>
    by_cases hp : p.1 = k
    · subst hp
      simp only [amodify, if_pos rfl]
      by_cases h : k' = p.1
      · subst h; simp [alookup_cons]
      · simp [alookup_cons, h, Ne.symm h]
    · simp only [amodify, if_neg hp, alookup_cons, ih]
      by_cases h : k' = k
      · subst h
        simp [fun hc : p.1 = k' => hp hc]
      · simp [h]

theorem alookup_aappend {α γ : Type} [DecidableEq α] (l : List (α × List γ)) (k : α)
    (x : γ) (k' : α) :
    alookup (aappend l k x) k' =
      if k' = k then some (((alookup l k).getD []) ++ [x]) else alookup l k' := by
  simp [aappend, alookup_amodify]

theorem alookup_mem {α β : Type} [DecidableEq α] {l : List (α × β)} {k : α} {v : β}
    (h : alookup l k = some v) : (k, v) ∈ l := by
  induction l with
  | nil => simp [alookup] at h
  | cons p rest ih =>
    rw [alookup_cons] at h
    by_cases hp : p.1 = k
    · simp only [hp, if_true, Option.some.injEq] at h
      exact List.mem_cons.mpr (Or.inl (Prod.ext hp.symm h.symm))
    · simp only [hp, if_false] at h
      exact List.mem_cons_of_mem _ (ih h)

theorem mem_aupsert {α β : Type} [DecidableEq α] {l : List (α × β)} {k : α} {v : β}
    {q : α × β} (h : q ∈ aupsert l k v) : q ∈ l ∨ q = (k, v) := by
  induction l with
  | nil =>
    simp only [aupsert, List.mem_singleton] at h
    right; exact h
  | cons p rest ih =>
    by_cases hp : p.1 = k
    · simp only [aupsert, hp, if_true, List.mem_cons] at h
      rcases h with h | h
      · right; exact h
      · left; exact List.mem_cons_of_mem _ h
    · simp only [aupsert, hp, if_false, List.mem_cons] at h
      rcases h with h | h
      · left; exact List.mem_cons.mpr (Or.inl h)
      · rcases ih h with h | h
        · left; exact List.mem_cons_of_mem _ h
        · right; exact h

theorem mem_amodify {α β : Type} [DecidableEq α] {l : List (α × β)} {k : α} {d : β}
    {g : β → β} {q : α × β} (h : q ∈ amodify l k d g) :
    q ∈ l ∨ ∃ x, (x = d ∨ (k, x) ∈ l) ∧ q = (k, g x) := by
  induction l with
  | nil =>
    simp only [amodify, List.mem_singleton] at h
    right; exact ⟨d, Or.inl rfl, h⟩
  | cons p rest ih =>
    by_cases hp : p.1 = k
    · simp only [amodify, hp, if_true, List.mem_cons] at h
      rcases h with h | h
      · right
        refine ⟨p.2, Or.inr ?_, h⟩
        exact List.mem_cons.mpr (Or.inl (by rw [← hp]))
      · left; exact List.mem_cons_of_mem _ h
    · simp only [amodify, hp, if_false, List.mem_cons] at h
      rcases h with h | h
      · left; exact List.mem_cons.mpr (Or.inl h)
      · rcases ih h with h | ⟨x, hx, hq⟩
        · left; exact List.mem_cons_of_mem _ h
        · right
          refine ⟨x, ?_, hq⟩
          rcases hx with hx | hx
          · exact Or.inl hx
          · exact Or.inr (List.mem_cons_of_mem _ hx)

theorem mem_aappend {α γ : Type} [DecidableEq α] {l : List (α × List γ)} {k : α} {x : γ}
    {q : α × List γ} (h : q ∈ aappend l k x) :
    q ∈ l ∨ ∃ xs, q = (k, xs ++ [x]) := by
  rcases mem_amodify h with h | ⟨ys, _, hy⟩
  · left; exact h
  · right; exact ⟨ys, hy⟩

theorem aupsert_keys_nodup {α β : Type} [DecidableEq α] {l : List (α × β)} (k : α) (v : β)
    (h : (l.map Prod.fst).Nodup) : ((aupsert l k v).map Prod.fst).Nodup := by
  induction l with
  | nil => simp [aupsert]
  | cons p rest ih =>
    by_cases hp : p.1 = k
    · simpa [aupsert, hp] using h
    · simp only [aupsert, hp, if_false, List.map_cons, List.nodup_cons] at h ⊢
      refine ⟨fun hm => ?_, ih h.2⟩
      rcases List.mem_map.mp hm with ⟨q, hq, hq1⟩
      rcases mem_aupsert hq with hq' | hq'
      · exact h.1 (List.mem_map.mpr ⟨q, hq', hq1⟩)
      · exact hp (by rw [hq'] at hq1; rw [← hq1])

theorem mem_sinsert {α : Type} [DecidableEq α] {l : List α} {x y : α}
    (h : y ∈ sinsert l x) : y ∈ l ∨ y = x := by
  unfold sinsert at h
  by_cases hx : x ∈ l
  · simp only [hx, if_true] at h; left; exact h
  · simp only [hx, if_false, List.mem_append, List.mem_singleton] at h; exact h

/-- Lookup after an in-place keyed update of one entry. -/
theorem alookup_update {α β : Type} [DecidableEq α] (l : List (α × β)) (k : α)
    (f : β → β) (t : α) :
    alookup (l.map (fun p => if p.1 = k then (p.1, f p.2) else p)) t =
      if t = k then (alookup l t).map f else alookup l t := by
  induction l with
  | nil => by_cases h : t = k <;> simp [alookup, h]
  | cons p rest ih =>
    by_cases hp : p.1 = k
    · subst hp
      simp only [List.map_cons, if_pos rfl, alookup_cons]
      by_cases h : t = p.1
      · subst h; simp [ih]
      · simp [Ne.symm h, h, ih]
    · simp only [List.map_cons, if_neg hp, alookup_cons, ih]
      by_cases hpt : p.1 = t
      · subst hpt
        simp [fun hc : p.1 = k => hp hc, show ¬ p.1 = k from hp]
      · simp [hpt]

/-- Entry membership after an in-place keyed update. -/
theorem mem_update {α β : Type} [DecidableEq α] {l : List (α × β)} {k : α}
    {f : β → β} {q : α × β}
    (h : q ∈ l.map (fun p => if p.1 = k then (p.1, f p.2) else p)) :
    q ∈ l ∨ ∃ x, (k, x) ∈ l ∧ q = (k, f x) := by
  rcases List.mem_map.mp h with ⟨p, hp, hpq⟩
  by_cases hk : p.1 = k
  · right
    refine ⟨p.2, ?_, ?_⟩
    · rw [← hk]; exact hp
    · rw [← hpq]; simp [hk]
  · left
    rw [← hpq]; simp [hk]; exact hp

/-- Membership characterisation of `update_transaction`. -/
theorem mem_update_transaction {s : TMState} {tid : String}
    {f : Transaction → Transaction} {q : String × Transaction}
    (h : q ∈ (update_transaction s tid f).transactions) :
    q ∈ s.transactions ∨ ∃ x, (tid, x) ∈ s.transactions ∧ q = (tid, f x) :=
  mem_update h

/-- Nodup of the second components forces entries with the same second
component to agree. -/
theorem nodup_snd_eq {γ : Type} {l : List (Nat × γ)}
    (h : (l.map Prod.snd).Nodup) {a b : Nat} {w : γ}
    (ha : (a, w) ∈ l) (hb : (b, w) ∈ l) : a = b := by
  induction l with
  | nil => simp at ha
  | cons p rest ih =>
    simp only [List.map_cons, List.nodup_cons] at h
    rcases List.mem_cons.mp ha with ha' | ha' <;> rcases List.mem_cons.mp hb with hb' | hb'
    · rw [← ha'] at hb'; cases hb'; rfl
    · exfalso
      exact h.1 (List.mem_map.mpr ⟨(b, w), hb', by rw [← ha']⟩)
    · exfalso
      exact h.1 (List.mem_map.mpr ⟨(a, w), ha', by rw [← hb']⟩)
    · exact ih h.2 ha' hb'

/-! ### Frame lemmas for the transaction-manager operations -/

theorem emit_transactions (s : TMState) (line : OutputLine) :
    (emit s line).transactions = s.transactions := rfl

theorem alookup_update_transaction (s : TMState) (tid : String) (f : Transaction → Transaction)
    (t : String) :
    alookup (update_transaction s tid f).transactions t =
      if t = tid then (alookup s.transactions t).map f else alookup s.transactions t := by
  unfold update_transaction
  exact alookup_update s.transactions tid f t

theorem abort_transaction_transactions (s : TMState) (tid : String) (r : AbortReason) :
    (abort_transaction s tid r).transactions =
      match alookup s.transactions tid with
      | none => s.transactions
      | some _ => s.transactions.map (fun p =>
          if p.1 = tid then
            (p.1, { p.2 with status := TransactionStatus.aborted, abort_reason := some r })
          else p) := by
  unfold abort_transaction
  cases alookup s.transactions tid <;> rfl

theorem alookup_abort_transaction (s : TMState) (tid : String) (r : AbortReason)
    (txn : Transaction) (h : alookup s.transactions tid = some txn) :
    alookup (abort_transaction s tid r).transactions tid =
      some { txn with status := TransactionStatus.aborted, abort_reason := some r } := by
  rw [abort_transaction_transactions, h]
  have h2 := alookup_update s.transactions tid
    (fun t => { t with status := TransactionStatus.aborted, abort_reason := some r }) tid
  simp only [if_pos rfl, h, Option.map_some'] at h2
  exact h2

/-! ### Claim C10 -/

/-- C10: a read or write command naming a transaction whose status is
aborted is a complete no-op: `TransactionManager.read` returns `None`
and leaves the whole state (sites, serialization graph, commit history,
transaction records, waiting queue, printed output) unchanged, and
`TransactionManager.write` likewise buffers nothing, prints nothing and
changes nothing. -/
theorem C10_aborted_commands_are_noops :
    ∀ (s : TMState) (tid : String) (v : Nat) (value : Int),
      transaction_status s tid = some TransactionStatus.aborted →
      tm_read s tid v = (none, s) ∧ tm_write s tid v value = s := by
  intro s tid v value h
  unfold transaction_status at h
  cases halo : alookup s.transactions tid with
  | none => rw [halo] at h; simp at h
  | some txn =>
    rw [halo] at h
    simp only [Option.map_some', Option.some.injEq] at h
    constructor
    · simp [tm_read, halo, h]
    · simp [tm_write, halo, h]

/-- Witness for C10 at a concrete aborted transaction: after
`fail(4); begin(T1); R(T1,x3); end(T1)` the transaction T1 is aborted,
and both a read and a write for T1 leave the state untouched. -/
theorem C10_witness :
    tm_read (run [Command.fail_cmd 4, Command.begin_txn "T1",
        Command.read_cmd "T1" 3, Command.end_txn "T1"]) "T1" 5 =
      (none, run [Command.fail_cmd 4, Command.begin_txn "T1",
        Command.read_cmd "T1" 3, Command.end_txn "T1"]) ∧
    tm_write (run [Command.fail_cmd 4, Command.begin_txn "T1",
        Command.read_cmd "T1" 3, Command.end_txn "T1"]) "T1" 5 7 =
      run [Command.fail_cmd 4, Command.begin_txn "T1",
        Command.read_cmd "T1" 3, Command.end_txn "T1"] :=
  C10_aborted_commands_are_noops _ "T1" 5 7 (by decide)

/-! ### Claim C9 -/

/-- C9: for a registered, non-aborted transaction, a read of a variable
buffered in its write set returns the buffered value (read-own-write),
touching nothing but the output line — in particular the sites play no
role, so the answer is unchanged even if every host of the variable has
failed; and if the write set has no entry but the read set has one, the
read returns the cached value the same way, consulting no site. -/
theorem C9_read_own_write_and_cache :
    ∀ (s : TMState) (tid : String) (v : Nat) (txn : Transaction),
      alookup s.transactions tid = some txn →
      ¬ txn.status = TransactionStatus.aborted →
      (∀ value ws, alookup txn.write_set v = some (value, ws) →
        tm_read s tid v = (some value, emit s (OutputLine.read_value v value))) ∧
      (∀ value sid, alookup txn.write_set v = none →
        alookup txn.read_set v = some (value, sid) →
        tm_read s tid v = (some value, emit s (OutputLine.read_value v value))) := by
  intro s tid v txn h hst
  constructor
  · intro value ws hw
    simp [tm_read, h, hst, hw]
  · intro value sid hw hr
    simp [tm_read, h, hst, hw, hr]

/-- Witness for C9: after `begin(T1); W(T1,x1,999)` a read of x1 by T1
returns the buffered 999 (the committed value everywhere is still 10). -/
theorem C9_witness :
    tm_read (run [Command.begin_txn "T1", Command.write_cmd "T1" 1 999]) "T1" 1 =
      (some 999, emit (run [Command.begin_txn "T1", Command.write_cmd "T1" 1 999])
        (OutputLine.read_value 1 999)) :=
  (C9_read_own_write_and_cache _ "T1" 1
      ⟨"T1", 1, TransactionStatus.active, [], [(1, 999, [2])], [2], [2],
        [(2, 2)], [(2, 2)], none, none⟩
      (by decide) (by decide)).1 999 [2] (by decide)

/-! ### Claim C2 -/

/-- The version walk of `Site.can_read_variable` examines exactly the
first stored version with `commit_time ≤ txn_start` and never any older
one. -/
theorem can_read_loop_eq_find (site : Site) (txn_start : Nat)
    (l : List VariableVersion) :
    site.can_read_loop txn_start l =
      match l.find? (fun ver => decide (ver.commit_time ≤ txn_start)) with
      | none => (false, none)
      | some ver =>
        if site.was_up_continuously ver.commit_time txn_start then (true, some ver.value)
        else (false, none) := by
  induction l with
  | nil => rfl
  | cons ver rest ih =>
    by_cases h : ver.commit_time ≤ txn_start
    · simp [Site.can_read_loop, h, List.find?_cons]
    · simp [Site.can_read_loop, h, List.find?_cons, ih]

/-- C2: for an up site storing a replicated (even-indexed) variable, the
snapshot read is refused outright when the site has recovered
(`R > 0`), the transaction started at or after that recovery, and the
readability flag is off; otherwise it walks the stored versions
newest-first, and on the first one with `commit_time ≤ txn_start`
returns its value exactly when the site was up continuously from that
commit through the transaction start — older versions are never
consulted. -/
theorem C2_replicated_snapshot_read :
    ∀ (site : Site) (v txn_start : Nat) (var : Variable),
      site.is_up = true →
      site.lookup_variable v = some var →
      v % 2 = 0 →
      site.can_read_variable v txn_start =
        (if (site.get_last_recovery_time > 0 ∧ txn_start ≥ site.get_last_recovery_time) ∧
            var.is_readable = false then (false, none)
         else
           match var.versions.find? (fun ver => decide (ver.commit_time ≤ txn_start)) with
           | none => (false, none)
           | some ver =>
             if site.was_up_continuously ver.commit_time txn_start then
               (true, some ver.value)
             else (false, none)) := by
  intro site v txn_start var hup hvar hev
  have hodd : ¬ v % 2 = 1 := by omega
  simp [Site.can_read_variable, hup, hvar, hodd, can_read_loop_eq_find]

/-- Witness for C2 on a concrete site: the fresh site 1 with the initial
replicated variable x2; the characterization evaluates to a successful
read of the initial value 20. -/
theorem C2_witness :
    Site.can_read_variable (Site.init 1) 2 0 = (true, some 20) := by
  rw [C2_replicated_snapshot_read (Site.init 1) 2 0
        ⟨2, [⟨20, 0, "init"⟩], true⟩ rfl (by decide) rfl]
  decide

/-! ### Claim C4 -/

/-- C4: for a transaction that reaches `end` while active, the
Available-Copies site-failure rule is decided first: whenever some
written site has a failure record strictly after the transaction's
first write time there, the transaction aborts with the
`site_failed_after_write` cause — no matter whether the
First-Committer-Wins predicate or the dangerous-cycle predicate would
also fire, so the site-failure rule takes precedence over both. -/
theorem C4_site_failure_rule_first :
    ∀ (s : TMState) (tid : String) (txn : Transaction),
      alookup s.transactions tid = some txn →
      txn.status = TransactionStatus.active →
      site_failure_violation s txn = true →
      alookup (end_transaction s tid).transactions tid =
        some { txn with status := TransactionStatus.aborted,
                        abort_reason := some AbortReason.site_failed_after_write } := by
  intro s tid txn h hst hviol
  unfold end_transaction
  rw [h]
  simp only [hst, hviol, if_true, if_false, reduceCtorEq, emit_transactions]
  exact alookup_abort_transaction s tid AbortReason.site_failed_after_write txn h

/-- Witness for C4: after `begin(T1); begin(T2); W(T1,x2,7); W(T2,x2,8);
end(T2); fail(3)` the still-active T1 has both a conflicting committed
write of x2 (the First-Committer-Wins predicate holds as well) and a
written site that failed afterwards; `end(T1)` records the site-failure
cause, showing the precedence. -/
theorem C4_witness :
    first_committer_violation
        (run [Command.begin_txn "T1", Command.begin_txn "T2",
          Command.write_cmd "T1" 2 7, Command.write_cmd "T2" 2 8,
          Command.end_txn "T2", Command.fail_cmd 3])
        ⟨"T1", 1, TransactionStatus.active, [],
          [(2, 7, [1, 2, 3, 4, 5, 6, 7, 8, 9, 10])],
          [1, 2, 3, 4, 5, 6, 7, 8, 9, 10], [1, 2, 3, 4, 5, 6, 7, 8, 9, 10],
          [(1, 3), (2, 3), (3, 3), (4, 3), (5, 3), (6, 3), (7, 3), (8, 3), (9, 3), (10, 3)],
          [(1, 3), (2, 3), (3, 3), (4, 3), (5, 3), (6, 3), (7, 3), (8, 3), (9, 3), (10, 3)],
          none, none⟩ "T1" = true ∧
    alookup (end_transaction
        (run [Command.begin_txn "T1", Command.begin_txn "T2",
          Command.write_cmd "T1" 2 7, Command.write_cmd "T2" 2 8,
          Command.end_txn "T2", Command.fail_cmd 3]) "T1").transactions "T1" =
      some ⟨"T1", 1, TransactionStatus.aborted, [],
        [(2, 7, [1, 2, 3, 4, 5, 6, 7, 8, 9, 10])],
        [1, 2, 3, 4, 5, 6, 7, 8, 9, 10], [1, 2, 3, 4, 5, 6, 7, 8, 9, 10],
        [(1, 3), (2, 3), (3, 3), (4, 3), (5, 3), (6, 3), (7, 3), (8, 3), (9, 3), (10, 3)],
        [(1, 3), (2, 3), (3, 3), (4, 3), (5, 3), (6, 3), (7, 3), (8, 3), (9, 3), (10, 3)],
        some AbortReason.site_failed_after_write, none⟩ :=
  ⟨by decide,
   C4_site_failure_rule_first _ "T1"
      ⟨"T1", 1, TransactionStatus.active, [],
        [(2, 7, [1, 2, 3, 4, 5, 6, 7, 8, 9, 10])],
        [1, 2, 3, 4, 5, 6, 7, 8, 9, 10], [1, 2, 3, 4, 5, 6, 7, 8, 9, 10],
        [(1, 3), (2, 3), (3, 3), (4, 3), (5, 3), (6, 3), (7, 3), (8, 3), (9, 3), (10, 3)],
        [(1, 3), (2, 3), (3, 3), (4, 3), (5, 3), (6, 3), (7, 3), (8, 3), (9, 3), (10, 3)],
        none, none⟩
      (by decide) rfl (by decide)⟩

/-! ### Claim C3 -/

/-- A left fold whose step preserves a projection preserves it overall. -/
theorem foldl_preserves {β γ : Type} (proj : TMState → γ) (g : TMState → β → TMState)
    (hg : ∀ s b, proj (g s b) = proj s) :
    ∀ (l : List β) (s : TMState), proj (l.foldl g s) = proj s := by
  intro l
  induction l with
  | nil => intro s; rfl
  | cons b rest ih => intro s; rw [List.foldl_cons, ih, hg]

/-- `_commit_transaction` marks the transaction committed. -/
theorem commit_transaction_status (s : TMState) (tid : String) (txn : Transaction)
    (h : alookup s.transactions tid = some txn) :
    transaction_status (commit_transaction s tid) tid =
      some TransactionStatus.committed := by
  unfold commit_transaction
  rw [h]
  unfold transaction_status
  rw [alookup_update_transaction]
  rw [if_pos rfl]
  rw [foldl_preserves (fun st => st.transactions)
        (commit_apply s.current_time tid) (fun _ _ => rfl), h]
  rfl

/-- The concrete write-skew trace: T1 reads x2 and writes x4, T2 reads
x4 and writes x2, T1 commits first. -/
def write_skew_prefix : List Command :=
  [Command.begin_txn "T1", Command.begin_txn "T2",
   Command.read_cmd "T1" 2, Command.read_cmd "T2" 4,
   Command.write_cmd "T2" 2 200, Command.write_cmd "T1" 4 100,
   Command.end_txn "T1"]

/-- Counterexample to C3 as stated: in the write-skew trace T2 reaches
its `end` active, passes the site-failure rule, and has no commit-history
entry for any written variable with `commit_time > start_time` by another
writer (the First-Committer-Wins predicate is false) — yet T2 aborts,
because the dangerous-cycle check fires.  So "T aborts iff some
write-set variable has such an entry" fails in the only-if direction. -/
theorem C3_counterexample :
    transaction_status (run write_skew_prefix) "T2" = some TransactionStatus.active ∧
    ((alookup (run write_skew_prefix).transactions "T2").map
      (fun txn => site_failure_violation (run write_skew_prefix) txn)) = some false ∧
    ((alookup (run write_skew_prefix).transactions "T2").map
      (fun txn => first_committer_violation (run write_skew_prefix) txn "T2")) =
        some false ∧
    transaction_status (step (run write_skew_prefix) (Command.end_txn "T2")) "T2" =
      some TransactionStatus.aborted := by
  refine ⟨by decide, by decide, by decide, by decide⟩

/-- The spec's concrete first-committer-wins scenario. -/
def first_committer_scenario : List Command :=
  [Command.begin_txn "T1", Command.begin_txn "T2",
   Command.write_cmd "T1" 1 101, Command.write_cmd "T2" 1 201,
   Command.write_cmd "T1" 2 102, Command.write_cmd "T2" 2 202,
   Command.end_txn "T2", Command.end_txn "T1", Command.dump_cmd]

/-- C3 (amended): for a transaction reaching `end` active and passing the
site-failure rule, a commit-history entry on a written variable with
`commit_time > start_time` by another writer forces an abort with the
First-Committer-Wins cause; conversely, when no such entry exists the
transaction commits provided the dangerous-cycle check (which is decided
after First Committer Wins) also passes — the unqualified "aborts iff"
of the claim fails only because of that later cycle check (see the
counterexample).  In the spec's concrete scenario T2 commits, T1 aborts,
and the dump shows x1 = 201 and x2 = 202. -/
theorem C3_first_committer_wins_amended :
    (∀ (s : TMState) (tid : String) (txn : Transaction),
      alookup s.transactions tid = some txn →
      txn.status = TransactionStatus.active →
      site_failure_violation s txn = false →
      (first_committer_violation s txn tid = true →
        alookup (end_transaction s tid).transactions tid =
          some { txn with status := TransactionStatus.aborted,
                          abort_reason := some AbortReason.first_committer_wins }) ∧
      (first_committer_violation s txn tid = false →
        would_create_dangerous_cycle s tid = false →
        transaction_status (end_transaction s tid) tid =
          some TransactionStatus.committed)) ∧
    (OutputLine.commits "T2" ∈ (run first_committer_scenario).output ∧
     OutputLine.aborts "T1" ∈ (run first_committer_scenario).output ∧
     transaction_status (run first_committer_scenario) "T2" =
       some TransactionStatus.committed ∧
     transaction_status (run first_committer_scenario) "T1" =
       some TransactionStatus.aborted ∧
     (get_site (run first_committer_scenario).sites 2).map
       (fun st => st.get_committed_value 1) = some (some 201) ∧
     ((run first_committer_scenario).sites.all
       (fun st => st.get_committed_value 2 == some 202)) = true) := by
  constructor
  · intro s tid txn h hst hsite
    constructor
    · intro hfcw
      unfold end_transaction
      rw [h]
      simp only [hst, hsite, hfcw, if_true, if_false, reduceCtorEq, Bool.false_eq_true,
        emit_transactions]
      exact alookup_abort_transaction s tid AbortReason.first_committer_wins txn h
    · intro hfcw hcyc
      unfold end_transaction
      rw [h]
      simp only [hst, hsite, hfcw, hcyc, if_true, if_false, reduceCtorEq,
        Bool.false_eq_true]
      show transaction_status (emit (commit_transaction s tid) _) tid = _
      unfold transaction_status
      rw [emit_transactions]
      exact commit_transaction_status s tid txn h
  · refine ⟨by decide, by decide, by decide, by decide, by decide, by decide⟩

/-- Witness for C3 at a concrete input: after
`begin(T1); begin(T2); W(T1,x1,101); W(T2,x1,201); end(T2)` the active
T1 passes the site rule, the First-Committer-Wins predicate holds, and
`end(T1)` aborts T1 with that cause. -/
theorem C3_witness :
    alookup (end_transaction
        (run [Command.begin_txn "T1", Command.begin_txn "T2",
          Command.write_cmd "T1" 1 101, Command.write_cmd "T2" 1 201,
          Command.end_txn "T2"]) "T1").transactions "T1" =
      some ⟨"T1", 1, TransactionStatus.aborted, [], [(1, 101, [2])], [2], [2],
        [(2, 3)], [(2, 3)], some AbortReason.first_committer_wins, none⟩ :=
  ((C3_first_committer_wins_amended.1 _ "T1"
      ⟨"T1", 1, TransactionStatus.active, [], [(1, 101, [2])], [2], [2],
        [(2, 3)], [(2, 3)], none, none⟩
      (by decide) rfl (by decide)).1 (by decide))

/-! ### Claim C5 -/

/-- `Site.write_variable` never changes the site id. -/
theorem write_variable_site_id (site : Site) (u : Nat) (value : Int) (ct : Nat)
    (tid : String) : (site.write_variable u value ct tid).site_id = site.site_id := by
  unfold Site.write_variable
  split <;> rfl

/-- `Site.write_variable` never changes the liveness flag. -/
theorem write_variable_is_up (site : Site) (u : Nat) (value : Int) (ct : Nat)
    (tid : String) : (site.write_variable u value ct tid).is_up = site.is_up := by
  unfold Site.write_variable
  split <;> rfl

/-- `Site.write_variable` never changes the failure history. -/
theorem write_variable_failure_history (site : Site) (u : Nat) (value : Int) (ct : Nat)
    (tid : String) :
    (site.write_variable u value ct tid).failure_history = site.failure_history := by
  unfold Site.write_variable
  split <;> rfl

/-- `find?` by index commutes with an index-preserving map. -/
theorem find?_map_index {g : Variable → Variable} (hg : ∀ w, (g w).index = w.index)
    (l : List Variable) (v : Nat) :
    (l.map g).find? (fun w => decide (w.index = v)) =
      (l.find? (fun w => decide (w.index = v))).map g := by
  rw [List.find?_map]
  have hcomp : ((fun w : Variable => decide (w.index = v)) ∘ g) =
      (fun w : Variable => decide (w.index = v)) := by
    funext w
    simp [Function.comp, hg w]
  rw [hcomp]

/-- Writing one variable leaves the others unchanged. -/
theorem write_variable_lookup_other (site : Site) (u : Nat) (value : Int) (ct : Nat)
    (tid : String) (v : Nat) (hne : v ≠ u) :
    (site.write_variable u value ct tid).lookup_variable v =
      site.lookup_variable v := by
  unfold Site.write_variable
  split
  · rfl
  · show Site.lookup_variable ⟨site.site_id, site.is_up, _, site.failure_history⟩ v = _
    unfold Site.lookup_variable
    rw [find?_map_index (fun w => by split <;> rfl)]
    cases hf : site.vars.find? (fun w => decide (w.index = v)) with
    | none => rfl
    | some w =>
      have hp := List.find?_some hf
      have hwv : w.index = v := of_decide_eq_true hp
      simp [hwv, hne]

/-- Writing a stored variable prepends the version and sets the flag. -/
theorem write_variable_lookup_self (site : Site) (u : Nat) (value : Int) (ct : Nat)
    (tid : String) (h : site.has_variable u = true) :
    (site.write_variable u value ct tid).lookup_variable u =
      (site.lookup_variable u).map (fun var =>
        { var with versions := ⟨value, ct, tid⟩ :: var.versions,
                   is_readable := true }) := by
  unfold Site.write_variable
  rw [if_neg (by simp [h])]
  show Site.lookup_variable ⟨site.site_id, site.is_up, _, site.failure_history⟩ u = _
  unfold Site.lookup_variable
  rw [find?_map_index (fun w => by split <;> rfl)]
  cases hf : site.vars.find? (fun w => decide (w.index = u)) with
  | none => rfl
  | some w =>
    have hp := List.find?_some hf
    have hwu : w.index = u := of_decide_eq_true hp
    simp [hwu]

/-- Writing a variable a site does not store is a no-op. -/
theorem write_variable_absent (site : Site) (u : Nat) (value : Int) (ct : Nat)
    (tid : String) (h : site.has_variable u = false) :
    site.write_variable u value ct tid = site := by
  unfold Site.write_variable
  rw [if_pos (by simp [h])]

/-- A site found by `get_site` carries the id it was found by. -/
theorem get_site_some_id {sites : List Site} {sid : Nat} {site : Site}
    (h : get_site sites sid = some site) : site.site_id = sid := by
  unfold get_site at h
  have hp := List.find?_some h
  exact of_decide_eq_true hp

/-- `get_site` commutes with an id-preserving map of the site list. -/
theorem get_site_map (sites : List Site) (f : Site → Site)
    (hf : ∀ st, (f st).site_id = st.site_id) (sid : Nat) :
    get_site (sites.map f) sid = (get_site sites sid).map f := by
  unfold get_site
  rw [List.find?_map]
  have hcomp : ((fun st : Site => decide (st.site_id = sid)) ∘ f) =
      (fun st : Site => decide (st.site_id = sid)) := by
    funext st
    simp [Function.comp, hf st]
  rw [hcomp]

/-- Membership in the up hosts of a variable, given the stored site. -/
theorem mem_up_sites_for_variable {sites : List Site} {v sid : Nat} {site : Site}
    (h : get_site sites sid = some site) :
    (sid ∈ up_sites_for_variable sites v) ↔
      (sid ∈ sites_for_variable v ∧ site.is_up = true) := by
  unfold up_sites_for_variable
  rw [List.mem_filter, h]

/-- A key that misses every entry looks up to `none`. -/
theorem alookup_eq_none {α β : Type} [DecidableEq α] {l : List (α × β)} {k : α}
    (h : k ∉ l.map Prod.fst) : alookup l k = none := by
  induction l with
  | nil => rfl
  | cons p rest ih =>
    simp only [List.map_cons, List.mem_cons] at h
    push_neg at h
    rw [alookup_cons, if_neg (fun hc => h.1 hc.symm)]
    exact ih h.2

/-- What one `commit_apply` does to the commit history of its variable. -/
theorem commit_apply_history_self (ct : Nat) (tid : String) (s : TMState)
    (p : Nat × Int × List Nat) :
    alookup (commit_apply ct tid s p).variable_commit_history p.1 =
      some (((alookup s.variable_commit_history p.1).getD []) ++ [(ct, tid)]) := by
  show alookup (aappend s.variable_commit_history p.1 (ct, tid)) p.1 = _
  rw [alookup_aappend, if_pos rfl]

/-- One `commit_apply` leaves the history of every other variable alone. -/
theorem commit_apply_history_other (ct : Nat) (tid : String) (s : TMState)
    (p : Nat × Int × List Nat) (v : Nat) (h : v ≠ p.1) :
    alookup (commit_apply ct tid s p).variable_commit_history v =
      alookup s.variable_commit_history v := by
  show alookup (aappend s.variable_commit_history p.1 (ct, tid)) v = _
  rw [alookup_aappend, if_neg h]

/-- What one `commit_apply` does at each site: the written variable is
overwritten exactly at the recorded write sites that are up hosts
actually storing it; everything else at the site is untouched. -/
theorem commit_apply_step (ct : Nat) (tid : String) (s : TMState)
    (p : Nat × Int × List Nat) (sid : Nat) (site : Site)
    (h : get_site s.sites sid = some site) :
    ∃ site', get_site (commit_apply ct tid s p).sites sid = some site' ∧
      site'.is_up = site.is_up ∧
      (∀ v, v ≠ p.1 → site'.lookup_variable v = site.lookup_variable v) ∧
      (if sid ∈ p.2.2 ∧ sid ∈ sites_for_variable p.1 ∧ site.is_up = true ∧
          site.has_variable p.1 = true then
        site'.lookup_variable p.1 = (site.lookup_variable p.1).map (fun var =>
          { var with versions := ⟨p.2.1, ct, tid⟩ :: var.versions,
                     is_readable := true })
      else site'.lookup_variable p.1 = site.lookup_variable p.1) := by
  have hsid := get_site_some_id h
  have hsites : (commit_apply ct tid s p).sites = s.sites.map (fun st =>
      if st.site_id ∈ p.2.2.filter
          (fun sd => decide (sd ∈ up_sites_for_variable s.sites p.1)) then
        st.write_variable p.1 p.2.1 ct tid
      else st) := rfl
  have hpres : ∀ st : Site,
      ((fun st : Site =>
        if st.site_id ∈ p.2.2.filter
            (fun sd => decide (sd ∈ up_sites_for_variable s.sites p.1)) then
          st.write_variable p.1 p.2.1 ct tid
        else st) st).site_id = st.site_id := by
    intro st
    dsimp only
    split
    · exact write_variable_site_id st p.1 p.2.1 ct tid
    · rfl
  rw [hsites]
  rw [get_site_map s.sites _ hpres sid, h, Option.map_some']
  refine ⟨_, rfl, ?_, ?_, ?_⟩
  · split
    · exact write_variable_is_up site p.1 p.2.1 ct tid
    · rfl
  · intro v hv
    split
    · exact write_variable_lookup_other site p.1 p.2.1 ct tid v hv
    · rfl
  · rw [hsid]
    by_cases hmem : sid ∈ p.2.2.filter
        (fun sd => decide (sd ∈ up_sites_for_variable s.sites p.1))
    · rw [if_pos hmem]
      have hmem' := List.mem_filter.mp hmem
      have hup : sid ∈ sites_for_variable p.1 ∧ site.is_up = true :=
        (mem_up_sites_for_variable h).mp (of_decide_eq_true hmem'.2)
      by_cases hhas : site.has_variable p.1 = true
      · rw [if_pos ⟨hmem'.1, hup.1, hup.2, hhas⟩]
        exact write_variable_lookup_self site p.1 p.2.1 ct tid hhas
      · rw [if_neg (fun hc => hhas hc.2.2.2)]
        rw [write_variable_absent site p.1 p.2.1 ct tid (by
          cases hb : site.has_variable p.1
          · rfl
          · exact absurd hb hhas)]
    · rw [if_neg hmem]
      rw [if_neg (fun hc => hmem (List.mem_filter.mpr ⟨hc.1,
        decide_eq_true ((mem_up_sites_for_variable h).mpr ⟨hc.2.1, hc.2.2.1⟩)⟩))]

/-- Characterization of the whole commit loop
(`for var_name, (value, write_sites) in txn.write_set.items()`): a
variable without a write-set entry keeps its commit history and its
stored state at every site; a variable with an entry gets exactly one
appended `(ct, tid)` history entry, and its stored state changes exactly
at the sites in the intersection of the recorded write sites with the
up hosts storing it. -/
theorem commit_fold_char (ct : Nat) (tid : String) :
    ∀ (ws : List (Nat × Int × List Nat)) (s : TMState),
      (ws.map Prod.fst).Nodup →
      (∀ v, alookup ws v = none →
        alookup ((ws.foldl (commit_apply ct tid) s)).variable_commit_history v =
          alookup s.variable_commit_history v ∧
        (∀ sid site, get_site s.sites sid = some site →
          ∃ site', get_site (ws.foldl (commit_apply ct tid) s).sites sid = some site' ∧
            site'.lookup_variable v = site.lookup_variable v)) ∧
      (∀ v value wsity, alookup ws v = some (value, wsity) →
        alookup (ws.foldl (commit_apply ct tid) s).variable_commit_history v =
          some (((alookup s.variable_commit_history v).getD []) ++ [(ct, tid)]) ∧
        (∀ sid site, get_site s.sites sid = some site →
          ∃ site', get_site (ws.foldl (commit_apply ct tid) s).sites sid = some site' ∧
            (if sid ∈ wsity ∧ sid ∈ sites_for_variable v ∧ site.is_up = true ∧
                site.has_variable v = true then
              site'.lookup_variable v = (site.lookup_variable v).map (fun var =>
                { var with versions := ⟨value, ct, tid⟩ :: var.versions,
                           is_readable := true })
            else site'.lookup_variable v = site.lookup_variable v))) := by
  intro ws
  induction ws with
  | nil =>
    intro s _
    constructor
    · intro v _
      exact ⟨rfl, fun sid site h => ⟨site, h, rfl⟩⟩
    · intro v value wsity hv
      simp [alookup_nil] at hv
  | cons p rest ih =>
    obtain ⟨pv, pval, psites⟩ := p
    intro s hnd
    simp only [List.map_cons, List.nodup_cons] at hnd
    obtain ⟨hp_not, hnd'⟩ := hnd
    have ihs := ih (commit_apply ct tid s (pv, pval, psites)) hnd'
    rw [List.foldl_cons]
    constructor
    · intro v hv
      rw [alookup_cons] at hv
      by_cases hpv : pv = v
      · rw [if_pos hpv] at hv
        exact absurd hv (by simp)
      · rw [if_neg hpv] at hv
        have hvne : v ≠ pv := fun hc => hpv hc.symm
        refine ⟨?_, ?_⟩
        · rw [(ihs.1 v hv).1,
            commit_apply_history_other ct tid s (pv, pval, psites) v hvne]
        · intro sid site hsite
          obtain ⟨site1, hs1, _hup1, hlother, _hself⟩ :=
            commit_apply_step ct tid s (pv, pval, psites) sid site hsite
          obtain ⟨site2, hs2, hl2⟩ := (ihs.1 v hv).2 sid site1 hs1
          exact ⟨site2, hs2, by rw [hl2, hlother v hvne]⟩
    · intro v value wsity hv
      rw [alookup_cons] at hv
      by_cases hpv : pv = v
      · subst hpv
        rw [if_pos rfl] at hv
        have hp2 := Option.some.inj hv
        injection hp2 with hval hrest
        subst hval
        subst hrest
        have hvnotin : alookup rest pv = none := alookup_eq_none hp_not
        refine ⟨?_, ?_⟩
        · rw [(ihs.1 pv hvnotin).1,
            commit_apply_history_self ct tid s (pv, pval, psites)]
        · intro sid site hsite
          obtain ⟨site1, hs1, _hup1, _hlother, hself⟩ :=
            commit_apply_step ct tid s (pv, pval, psites) sid site hsite
          obtain ⟨site2, hs2, hl2⟩ := (ihs.1 pv hvnotin).2 sid site1 hs1
          refine ⟨site2, hs2, ?_⟩
          rw [hl2]
          exact hself
      · rw [if_neg hpv] at hv
        have hvne : v ≠ pv := fun hc => hpv hc.symm
        refine ⟨?_, ?_⟩
        · rw [(ihs.2 v value wsity hv).1,
            commit_apply_history_other ct tid s (pv, pval, psites) v hvne]
        · intro sid site hsite
          obtain ⟨site1, hs1, hup1, hlother, _hself⟩ :=
            commit_apply_step ct tid s (pv, pval, psites) sid site hsite
          obtain ⟨site2, hs2, hl2⟩ := (ihs.2 v value wsity hv).2 sid site1 hs1
          refine ⟨site2, hs2, ?_⟩
          have hhas : site1.has_variable v = site.has_variable v := by
            unfold Site.has_variable
            rw [hlother v hvne]
          rw [hup1, hhas, hlother v hvne] at hl2
          exact hl2

/-- C5: a transaction that passes validation commits at the current
clock value: its status becomes committed; every variable of its write
set gets exactly one `(current_time, tid)` entry appended to its commit
history, and a version `(value, current_time, tid)` is prepended (with
the readability flag set) exactly at the sites in the intersection of
the recorded write sites with the currently up hosts storing the
variable — every other site, and every variable outside the write set,
is untouched. -/
theorem C5_commit_applies_writes :
    ∀ (s : TMState) (tid : String) (txn : Transaction),
      alookup s.transactions tid = some txn →
      (txn.write_set.map Prod.fst).Nodup →
      transaction_status (commit_transaction s tid) tid =
        some TransactionStatus.committed ∧
      (∀ v value wsity, alookup txn.write_set v = some (value, wsity) →
        alookup (commit_transaction s tid).variable_commit_history v =
          some (((alookup s.variable_commit_history v).getD []) ++
            [(s.current_time, tid)]) ∧
        (∀ sid site, get_site s.sites sid = some site →
          ∃ site', get_site (commit_transaction s tid).sites sid = some site' ∧
            (if sid ∈ wsity ∧ sid ∈ sites_for_variable v ∧ site.is_up = true ∧
                site.has_variable v = true then
              site'.lookup_variable v = (site.lookup_variable v).map (fun var =>
                { var with versions := ⟨value, s.current_time, tid⟩ :: var.versions,
                           is_readable := true })
            else site'.lookup_variable v = site.lookup_variable v))) ∧
      (∀ v, alookup txn.write_set v = none →
        alookup (commit_transaction s tid).variable_commit_history v =
          alookup s.variable_commit_history v ∧
        (∀ sid site, get_site s.sites sid = some site →
          ∃ site', get_site (commit_transaction s tid).sites sid = some site' ∧
            site'.lookup_variable v = site.lookup_variable v)) := by
  intro s tid txn h hnd
  have heqh : (commit_transaction s tid).variable_commit_history =
      (txn.write_set.foldl (commit_apply s.current_time tid) s).variable_commit_history := by
    unfold commit_transaction
    rw [h]
    rfl
  have heqs : (commit_transaction s tid).sites =
      (txn.write_set.foldl (commit_apply s.current_time tid) s).sites := by
    unfold commit_transaction
    rw [h]
    rfl
  refine ⟨commit_transaction_status s tid txn h, ?_, ?_⟩
  · intro v value wsity hv
    have hc := (commit_fold_char s.current_time tid txn.write_set s hnd).2 v value wsity hv
    rw [heqh, heqs]
    exact hc
  · intro v hv
    have hc := (commit_fold_char s.current_time tid txn.write_set s hnd).1 v hv
    rw [heqh, heqs]
    exact hc

/-- Witness for C5: after `begin(T1); W(T1,x2,55)`, committing T1 at
clock value 2 appends exactly `(2, T1)` to the commit history of x2. -/
theorem C5_witness :
    alookup (commit_transaction
        (run [Command.begin_txn "T1", Command.write_cmd "T1" 2 55])
        "T1").variable_commit_history 2 = some [(2, "T1")] := by
  have h := ((C5_commit_applies_writes
      (run [Command.begin_txn "T1", Command.write_cmd "T1" 2 55]) "T1"
      ⟨"T1", 1, TransactionStatus.active, [],
        [(2, 55, [1, 2, 3, 4, 5, 6, 7, 8, 9, 10])],
        [1, 2, 3, 4, 5, 6, 7, 8, 9, 10], [1, 2, 3, 4, 5, 6, 7, 8, 9, 10],
        [(1, 2), (2, 2), (3, 2), (4, 2), (5, 2), (6, 2), (7, 2), (8, 2), (9, 2), (10, 2)],
        [(1, 2), (2, 2), (3, 2), (4, 2), (5, 2), (6, 2), (7, 2), (8, 2), (9, 2), (10, 2)],
        none, none⟩
      (by decide) (by decide)).2.1 2 55 [1, 2, 3, 4, 5, 6, 7, 8, 9, 10]
      (by decide)).1
  simpa using h

/-! ### Claim C7 -/

/-- `transaction_status` is blind to updates that keep the status. -/
theorem status_update_transaction (s : TMState) (tid : String)
    (f : Transaction → Transaction) (t : String) (hf : ∀ x, (f x).status = x.status) :
    transaction_status (update_transaction s tid f) t = transaction_status s t := by
  unfold transaction_status
  rw [alookup_update_transaction]
  by_cases h : t = tid
  · rw [if_pos h]
    cases alookup s.transactions t with
    | none => rfl
    | some x => simp [hf]
  · rw [if_neg h]

/-- `_try_read` never changes any transaction status. -/
theorem try_read_status (s : TMState) (tid : String) (v : Nat) (t : String) :
    transaction_status (try_read s tid v).2 t = transaction_status s t := by
  unfold try_read
  split
  · rfl
  · split
    · rename_i sid value heq
      exact status_update_transaction s tid (fun x =>
        { x with read_set := aupsert x.read_set v (value, sid),
                 sites_accessed := sinsert x.sites_accessed sid }) t (fun x => rfl)
    · rfl

/-- `_try_read` never changes the sites. -/
theorem try_read_sites (s : TMState) (tid : String) (v : Nat) :
    (try_read s tid v).2.sites = s.sites := by
  unfold try_read
  split
  · rfl
  · split
    · rfl
    · rfl

/-- `_try_read` never changes the commit history. -/
theorem try_read_history (s : TMState) (tid : String) (v : Nat) :
    (try_read s tid v).2.variable_commit_history = s.variable_commit_history := by
  unfold try_read
  split
  · rfl
  · split
    · rfl
    · rfl

/-- Modelled from the spec, §4.3.4 step 1: enumerate the sites hosting
the variable and take the first up site whose snapshot read answers. -/
def spec_first_readable (s : TMState) (txn_start : Nat) (v : Nat) :
    List Nat → Option (Nat × Int)
  | [] => none
  | sid :: rest =>
    match get_site s.sites sid with
    | some site =>
      if site.is_up then
        match site.can_read_variable v txn_start with
        | (true, some value) => some (sid, value)
        | _ => spec_first_readable s txn_start v rest
      else spec_first_readable s txn_start v rest
    | none => spec_first_readable s txn_start v rest

/-- Modelled from the spec, §4.3.4 step 1 as invoked from §4.3.8: the
retry of a parked read.  On the first readable answer, record it in the
read set, add the site to the accessed sites, record the snapshot
writer, insert an RW edge towards every concurrent transaction holding
the variable in its write set (a waiting transaction counts as
concurrent, §9), emit the value, and return it; otherwise change
nothing.  (Following the transaction model of the spec, which has no
first-access bookkeeping, no first-access time is recorded.) -/
def spec_retry_read (s : TMState) (tid : String) (v : Nat) : Option Int × TMState :=
  match alookup s.transactions tid with
  | none => (none, s)
  | some txn =>
    match spec_first_readable s txn.start_time v (sites_for_variable v) with
    | some (sid, value) =>
      let s := update_transaction s tid (fun t =>
        { t with
          read_set := aupsert t.read_set v (value, sid),
          sites_accessed := sinsert t.sites_accessed sid })
      let writer := get_snapshot_writer s v txn.start_time
      let s := { s with
        snapshot_reads := amodify s.snapshot_reads tid [] (fun m => aupsert m v writer) }
      let s := check_rw_on_read s tid v
      (some value, emit s (OutputLine.read_value v value))
    | none => (none, s)

/-- Modelled from the spec, §4.3.8: walk the waiting queue in insertion
order; for each record whose transaction is still waiting retry the
read; on success restore the status to active, clear `waiting_for` and
drop the record; on failure keep the record.  (A record whose
transaction is no longer waiting is dropped, as the source does.) -/
def spec_resume_go :
    TMState → List WaitingOperation → List WaitingOperation →
    TMState × List WaitingOperation
  | s, [], kept => (s, kept)
  | s, op :: rest, kept =>
    match transaction_status s op.transaction_id with
    | some TransactionStatus.waiting =>
      match spec_retry_read s op.transaction_id op.variable_name with
      | (some _, s') =>
        spec_resume_go
          (update_transaction s' op.transaction_id (fun t =>
            { t with status := TransactionStatus.active, waiting_for := none }))
          rest kept
      | (none, s') => spec_resume_go s' rest (kept ++ [op])
    | _ => spec_resume_go s rest kept

/-- Modelled from the spec, §4.3.8: the whole waiting-queue walk. -/
def spec_resume_waiting (s : TMState) : TMState :=
  let r := spec_resume_go s s.waiting_operations []
  { r.1 with waiting_operations := r.2 }

/-- The site scan of `_try_read` is the first-readable walk
the spec describes. -/
theorem scan_readable_eq_spec (s : TMState) (txn_start : Nat) (v : Nat) :
    ∀ sites : List Nat,
      scan_readable s txn_start v sites = spec_first_readable s txn_start v sites := by
  intro sites
  induction sites with
  | nil => rfl
  | cons sid rest ih =>
    unfold scan_readable at ih ⊢
    rw [List.findSome?_cons]
    unfold spec_first_readable
    cases hg : get_site s.sites sid with
    | none => simpa using ih
    | some site =>
      by_cases hup : site.is_up
      · simp only [hup, if_true]
        rcases hcr : site.can_read_variable v txn_start with ⟨b, ov⟩
        cases b
        · simpa using ih
        · cases ov
          · simpa using ih
          · rfl
      · simp only [hup]
        simpa using ih

/-- `_try_read` is exactly the retry the spec describes. -/
theorem try_read_eq_spec_retry (s : TMState) (tid : String) (v : Nat) :
    try_read s tid v = spec_retry_read s tid v := by
  unfold try_read spec_retry_read
  cases alookup s.transactions tid with
  | none => rfl
  | some txn =>
    simp only [scan_readable_eq_spec s txn.start_time v (sites_for_variable v)]

/-- The queue walk of `_process_waiting_operations` is the walk the
spec describes. -/
theorem process_waiting_go_eq_spec :
    ∀ (ops : List WaitingOperation) (s : TMState) (kept : List WaitingOperation),
      process_waiting_go s ops kept = spec_resume_go s ops kept := by
  intro ops
  induction ops with
  | nil => intro s kept; rfl
  | cons op rest ih =>
    intro s kept
    unfold process_waiting_go spec_resume_go
    rw [try_read_eq_spec_retry]
    cases hst : transaction_status s op.transaction_id with
    | none => exact ih s kept
    | some st =>
      cases st
      case active => exact ih s kept
      case committed => exact ih s kept
      case aborted => exact ih s kept
      case waiting =>
        rcases hr : spec_retry_read s op.transaction_id op.variable_name with ⟨res, s'⟩
        cases res
        · exact ih s' (kept ++ [op])
        · exact ih _ kept

/-- Updating one transaction leaves every other status alone. -/
theorem status_update_transaction_ne (s : TMState) (tid : String)
    (f : Transaction → Transaction) (t : String) (h : ¬ t = tid) :
    transaction_status (update_transaction s tid f) t = transaction_status s t := by
  unfold transaction_status
  rw [alookup_update_transaction, if_neg h]

/-- Statuses across the queue walk: each transaction either keeps its
status or flips from waiting to active — nothing is ever aborted. -/
theorem process_waiting_go_status :
    ∀ (ops : List WaitingOperation) (s : TMState) (kept : List WaitingOperation)
      (t : String),
      transaction_status (process_waiting_go s ops kept).1 t = transaction_status s t ∨
      (transaction_status s t = some TransactionStatus.waiting ∧
       transaction_status (process_waiting_go s ops kept).1 t =
         some TransactionStatus.active) := by
  intro ops
  induction ops with
  | nil => intro s kept t; left; rfl
  | cons op rest ih =>
    intro s kept t
    unfold process_waiting_go
    cases hst : transaction_status s op.transaction_id with
    | none => exact ih s kept t
    | some st =>
      cases st
      case active => exact ih s kept t
      case committed => exact ih s kept t
      case aborted => exact ih s kept t
      case waiting =>
        rcases hr : try_read s op.transaction_id op.variable_name with ⟨res, s'⟩
        have hs' : ∀ u, transaction_status s' u = transaction_status s u := by
          intro u
          have hu := try_read_status s op.transaction_id op.variable_name u
          rw [hr] at hu
          exact hu
        cases res with
        | none =>
          rcases ih s' (kept ++ [op]) t with hsame | ⟨h1, h2⟩
          · left; rw [hsame, hs']
          · right; exact ⟨by rw [← hs' t]; exact h1, h2⟩
        | some value =>
          by_cases ht : t = op.transaction_id
          · right
            refine ⟨by rw [ht]; exact hst, ?_⟩
            rcases ih (update_transaction s' op.transaction_id (fun x =>
                { x with status := TransactionStatus.active, waiting_for := none }))
                kept t with hsame | ⟨h1, h2⟩
            · rw [hsame, ht]
              unfold transaction_status
              rw [alookup_update_transaction, if_pos rfl]
              have hst' := hs' op.transaction_id
              unfold transaction_status at hst' hst
              cases halo : alookup s'.transactions op.transaction_id with
              | none =>
                rw [halo] at hst'
                rw [hst] at hst'
                simp at hst'
              | some x => simp [halo]
            · exact h2
          · rcases ih (update_transaction s' op.transaction_id (fun x =>
                { x with status := TransactionStatus.active, waiting_for := none }))
                kept t with hsame | ⟨h1, h2⟩
            · left
              rw [hsame]
              rw [status_update_transaction_ne]
              · exact hs' t
              · exact ht
            · right
              refine ⟨?_, h2⟩
              rw [status_update_transaction_ne _ _ _ _ ht] at h1
              rw [← hs' t]
              exact h1

/-- C7: the waiting-queue drain after a recovery is exactly the walk the
spec prescribes (walk the records in insertion order; for a record whose
transaction is still waiting retry the read as step 1 of the read path;
on success record the read, restore the status to active, clear
`waiting_for` and remove the record; on failure leave the record), and
the walk never aborts a transaction: a status changes only from waiting
to active, so the no-valid-replica abort of the read path is not
re-applied and a parked transaction stays parked until a retry succeeds
or its end arrives. -/
theorem C7_waiting_resumption :
    ∀ s : TMState,
      process_waiting_operations s = spec_resume_waiting s ∧
      (∀ t, transaction_status (process_waiting_operations s) t =
          transaction_status s t ∨
        (transaction_status s t = some TransactionStatus.waiting ∧
         transaction_status (process_waiting_operations s) t =
           some TransactionStatus.active)) := by
  intro s
  constructor
  · unfold process_waiting_operations spec_resume_waiting
    rw [process_waiting_go_eq_spec]
  · intro t
    have h := process_waiting_go_status s.waiting_operations s [] t
    unfold process_waiting_operations
    exact h

/-! ### Claim C6 -/

/-- Invariant of a transaction that never issued a write: its write set
and written-site set are empty and no RW edge points at it. -/
def read_only_inv (s : TMState) (tid : String) : Prop :=
  (∀ p ∈ s.transactions, p.1 = tid → p.2.write_set = [] ∧ p.2.sites_written = []) ∧
  (∀ e ∈ s.edges, alookup e.2 tid = none)

/-- A fold preserves any property its steps preserve. -/
theorem foldl_preserve_prop {α β : Type} (P : β → Prop) (g : β → α → β)
    (l : List α) (hg : ∀ b a, a ∈ l → P b → P (g b a)) (b : β) (hb : P b) :
    P (l.foldl g b) := by
  induction l generalizing b with
  | nil => exact hb
  | cons a rest ih =>
    rw [List.foldl_cons]
    refine ih (fun b' a' ha' hb' => hg b' a' (List.mem_cons_of_mem _ ha') hb')
      (g b a) (hg b a (List.mem_cons_self a rest) hb)

/-- A key looking up to nothing still looks up to nothing in a sublist. -/
theorem alookup_filter_none {α β : Type} [DecidableEq α] {l : List (α × β)} {k : α}
    (f : α × β → Bool) (h : alookup l k = none) : alookup (l.filter f) k = none := by
  induction l with
  | nil => rfl
  | cons p rest ih =>
    rw [alookup_cons] at h
    by_cases hp : p.1 = k
    · rw [if_pos hp] at h
      exact absurd h (by simp)
    · rw [if_neg hp] at h
      rw [List.filter_cons]
      split
      · rw [alookup_cons, if_neg hp]
        exact ih h
      · exact ih h

/-- Adding an edge towards anyone else keeps a transaction edge-free. -/
theorem no_incoming_set_edge {es : List (String × List (String × String))}
    {src dst tid : String} (hdst : ¬ dst = tid)
    (h : ∀ e ∈ es, alookup e.2 tid = none) :
    ∀ e ∈ set_edge es src dst, alookup e.2 tid = none := by
  intro e he
  rcases mem_amodify he with he' | ⟨x, hx, rfl⟩
  · exact h e he'
  · show alookup (aupsert x dst "RW") tid = none
    rw [alookup_aupsert, if_neg (fun hc => hdst hc.symm)]
    rcases hx with rfl | hx
    · rfl
    · exact h (src, x) hx

/-- The edge fold of `_check_rw_on_read` adds no edge towards a
transaction whose write set is empty in every registered record. -/
theorem no_incoming_check_rw_fold {txns : List (String × Transaction)}
    {es : List (String × List (String × String))} {reader : String} {v : Nat}
    {tid : String}
    (hws : ∀ p ∈ txns, p.1 = tid → alookup p.2.write_set v = none)
    (hni : ∀ e ∈ es, alookup e.2 tid = none) :
    ∀ e ∈ txns.foldl (fun es p =>
      if p.1 = reader then es
      else if p.2.status = TransactionStatus.aborted ∨
              p.2.status = TransactionStatus.committed then es
      else if (alookup p.2.write_set v).isSome then set_edge es reader p.1
      else es) es, alookup e.2 tid = none := by
  refine foldl_preserve_prop (fun es => ∀ e ∈ es, alookup e.2 tid = none) _
    txns ?_ es hni
  intro es p hp hes
  dsimp only
  split
  · exact hes
  · split
    · exact hes
    · split
      · refine no_incoming_set_edge ?_ hes
        intro hc
        rename_i hsome
        rw [hws p hp hc] at hsome
        simp at hsome
      · exact hes

/-- The edge fold of `_check_dependencies_on_write` adds edges only
towards the writer. -/
theorem no_incoming_check_deps_fold {txns : List (String × Transaction)}
    {es : List (String × List (String × String))} {writer : String} {v : Nat}
    {tid : String} (hw : ¬ writer = tid)
    (hni : ∀ e ∈ es, alookup e.2 tid = none) :
    ∀ e ∈ txns.foldl (fun es p =>
      if p.1 = writer then es
      else if p.2.status = TransactionStatus.aborted ∨
              p.2.status = TransactionStatus.committed then es
      else if (alookup p.2.read_set v).isSome then set_edge es p.1 writer
      else es) es, alookup e.2 tid = none := by
  refine foldl_preserve_prop (fun es => ∀ e ∈ es, alookup e.2 tid = none) _
    txns ?_ es hni
  intro es p hp hes
  dsimp only
  split
  · exact hes
  · split
    · exact hes
    · split
      · exact no_incoming_set_edge hw hes
      · exact hes

/-- Keyed updates that keep the write set and the written sites keep the
read-only entry property. -/
theorem read_only_txn_update_pres {s : TMState} {tid tid' : String}
    {f : Transaction → Transaction}
    (hf : ∀ x, (f x).write_set = x.write_set ∧ (f x).sites_written = x.sites_written)
    (h : ∀ p ∈ s.transactions, p.1 = tid → p.2.write_set = [] ∧ p.2.sites_written = []) :
    ∀ p ∈ (update_transaction s tid' f).transactions, p.1 = tid →
      p.2.write_set = [] ∧ p.2.sites_written = [] := by
  intro p hp hptid
  rcases mem_update hp with hp' | ⟨x, hx, rfl⟩
  · exact h p hp' hptid
  · have hx' := h (tid', x) hx hptid
    rw [(hf x).1, (hf x).2]
    exact hx'

/-- `_abort_transaction` preserves the read-only invariant. -/
theorem read_only_inv_abort {s : TMState} {tid t' : String} {r : AbortReason}
    (h : read_only_inv s tid) : read_only_inv (abort_transaction s t' r) tid := by
  obtain ⟨htx, hni⟩ := h
  unfold abort_transaction
  split
  · exact ⟨htx, hni⟩
  · constructor
    · have hx : ∀ p ∈ (update_transaction s t' (fun t =>
          { t with status := TransactionStatus.aborted,
                   abort_reason := some r })).transactions, p.1 = tid →
          p.2.write_set = [] ∧ p.2.sites_written = [] :=
        read_only_txn_update_pres (fun x => ⟨rfl, rfl⟩) htx
      exact hx
    · intro e he
      rcases List.mem_map.mp he with ⟨p, hp, rfl⟩
      exact alookup_filter_none _ (hni p (List.mem_filter.mp hp).1)

/-- `park_read` preserves the read-only invariant. -/
theorem read_only_inv_park {s : TMState} {tid t' : String} {v : Nat} {sites : List Nat}
    (h : read_only_inv s tid) : read_only_inv (park_read s t' v sites).2 tid := by
  obtain ⟨htx, hni⟩ := h
  refine ⟨?_, hni⟩
  have hx : ∀ p ∈ (update_transaction (emit s (OutputLine.waiting_for_var t' v)) t'
      (fun t => { t with status := TransactionStatus.waiting,
                         waiting_for := some v })).transactions, p.1 = tid →
      p.2.write_set = [] ∧ p.2.sites_written = [] :=
    read_only_txn_update_pres (fun x => ⟨rfl, rfl⟩) htx
  exact hx

/-- `TransactionManager.read` preserves the read-only invariant. -/
theorem read_only_inv_tm_read (s : TMState) (tid t' : String) (v : Nat)
    (h : read_only_inv s tid) : read_only_inv (tm_read s t' v).2 tid := by
  obtain ⟨htx, hni⟩ := h
  unfold tm_read
  split
  · exact ⟨htx, hni⟩
  · rename_i txn hlook
    split
    · exact ⟨htx, hni⟩
    · split
      · exact ⟨htx, hni⟩
      · split
        · exact ⟨htx, hni⟩
        · dsimp only
          split
          · rename_i sid value tail heq
            have hx : ∀ p ∈ (update_transaction s t' (fun t =>
                { t with
                  read_set := aupsert t.read_set v (value, sid),
                  sites_accessed := sinsert t.sites_accessed sid,
                  site_first_access_time :=
                    if (alookup t.site_first_access_time sid).isSome then
                      t.site_first_access_time
                    else aupsert t.site_first_access_time sid
                      s.current_time })).transactions, p.1 = tid →
                p.2.write_set = [] ∧ p.2.sites_written = [] :=
              read_only_txn_update_pres (fun x => ⟨rfl, rfl⟩) htx
            constructor
            · exact hx
            · have hws : ∀ p ∈ (update_transaction s t' (fun t =>
                  { t with
                    read_set := aupsert t.read_set v (value, sid),
                    sites_accessed := sinsert t.sites_accessed sid,
                    site_first_access_time :=
                      if (alookup t.site_first_access_time sid).isSome then
                        t.site_first_access_time
                      else aupsert t.site_first_access_time sid
                        s.current_time })).transactions, p.1 = tid →
                  alookup p.2.write_set v = none := fun p hp hptid => by
                rw [(hx p hp hptid).1]; exact alookup_nil v
              exact no_incoming_check_rw_fold hws hni
          · split
            · split
              · exact read_only_inv_abort ⟨htx, hni⟩
              · exact read_only_inv_park ⟨htx, hni⟩
            · exact read_only_inv_park ⟨htx, hni⟩

/-- `TransactionManager.write` by another transaction preserves the
read-only invariant. -/
theorem read_only_inv_tm_write (s : TMState) (tid t' : String) (v : Nat) (value : Int)
    (hne : ¬ t' = tid) (h : read_only_inv s tid) :
    read_only_inv (tm_write s t' v value) tid := by
  obtain ⟨htx, hni⟩ := h
  unfold tm_write
  split
  · exact ⟨htx, hni⟩
  · split
    · exact ⟨htx, hni⟩
    · dsimp only
      have htx' : ∀ p ∈ (update_transaction s t' (fun t =>
          { t with
            write_set := aupsert t.write_set v
              (value, up_sites_for_variable s.sites v),
            sites_written := (up_sites_for_variable s.sites v).foldl sinsert
              t.sites_written,
            sites_accessed := (up_sites_for_variable s.sites v).foldl sinsert
              t.sites_accessed,
            site_first_access_time := (up_sites_for_variable s.sites v).foldl
              (fun m sid =>
                if (alookup m sid).isSome then m else aupsert m sid s.current_time)
              t.site_first_access_time,
            site_write_time := (up_sites_for_variable s.sites v).foldl
              (fun m sid =>
                if (alookup m sid).isSome then m else aupsert m sid s.current_time)
              t.site_write_time })).transactions, p.1 = tid →
          p.2.write_set = [] ∧ p.2.sites_written = [] := by
        intro p hp hptid
        rcases mem_update_transaction hp with hp' | ⟨x, hx, rfl⟩
        · exact htx p hp' hptid
        · exact absurd hptid hne
      split
      · exact ⟨htx', no_incoming_check_deps_fold hne hni⟩
      · exact ⟨htx', no_incoming_check_deps_fold hne hni⟩

/-- `_commit_transaction` preserves the read-only invariant. -/
theorem read_only_inv_commit {s : TMState} {tid t' : String}
    (h : read_only_inv s tid) : read_only_inv (commit_transaction s t') tid := by
  obtain ⟨htx, hni⟩ := h
  unfold commit_transaction
  split
  · exact ⟨htx, hni⟩
  · rename_i txn hlook
    have hfoldt : (txn.write_set.foldl (commit_apply s.current_time t') s).transactions =
        s.transactions :=
      foldl_preserves (fun st => st.transactions) (commit_apply s.current_time t')
        (fun _ _ => rfl) txn.write_set s
    have hfolde : (txn.write_set.foldl (commit_apply s.current_time t') s).edges =
        s.edges :=
      foldl_preserves (fun st => st.edges) (commit_apply s.current_time t')
        (fun _ _ => rfl) txn.write_set s
    constructor
    · intro p hp hptid
      rcases mem_update_transaction hp with hp' | ⟨x, hx, rfl⟩
      · rw [hfoldt] at hp'
        exact htx p hp' hptid
      · rw [hfoldt] at hx
        exact htx (t', x) hx hptid
    · intro e he
      have he' : e ∈ (txn.write_set.foldl (commit_apply s.current_time t') s).edges := he
      rw [hfolde] at he'
      exact hni e he'

/-- `end_transaction` preserves the read-only invariant. -/
theorem read_only_inv_end (s : TMState) (tid t' : String)
    (h : read_only_inv s tid) : read_only_inv (end_transaction s t') tid := by
  obtain ⟨htx, hni⟩ := h
  unfold end_transaction
  split
  · exact ⟨htx, hni⟩
  · split
    · exact ⟨htx, hni⟩
    · split
      · exact read_only_inv_abort ⟨htx, hni⟩
      · split
        · exact read_only_inv_abort ⟨htx, hni⟩
        · split
          · exact read_only_inv_abort ⟨htx, hni⟩
          · split
            · exact read_only_inv_abort ⟨htx, hni⟩
            · exact read_only_inv_commit ⟨htx, hni⟩

/-- `_try_read` preserves the read-only invariant. -/
theorem read_only_inv_try_read (s : TMState) (tid t' : String) (v : Nat)
    (h : read_only_inv s tid) : read_only_inv (try_read s t' v).2 tid := by
  obtain ⟨htx, hni⟩ := h
  unfold try_read
  split
  · exact ⟨htx, hni⟩
  · split
    · rename_i sid value heq
      have hx : ∀ p ∈ (update_transaction s t' (fun t =>
          { t with
            read_set := aupsert t.read_set v (value, sid),
            sites_accessed := sinsert t.sites_accessed sid })).transactions,
          p.1 = tid → p.2.write_set = [] ∧ p.2.sites_written = [] :=
        read_only_txn_update_pres (fun x => ⟨rfl, rfl⟩) htx
      constructor
      · exact hx
      · have hws : ∀ p ∈ (update_transaction s t' (fun t =>
            { t with
              read_set := aupsert t.read_set v (value, sid),
              sites_accessed := sinsert t.sites_accessed sid })).transactions,
            p.1 = tid → alookup p.2.write_set v = none := fun p hp hptid => by
          rw [(hx p hp hptid).1]; exact alookup_nil v
        exact no_incoming_check_rw_fold hws hni
    · exact ⟨htx, hni⟩

/-- The waiting-queue walk preserves the read-only invariant. -/
theorem read_only_inv_go (tid : String) :
    ∀ (ops : List WaitingOperation) (s : TMState) (kept : List WaitingOperation),
      read_only_inv s tid → read_only_inv (process_waiting_go s ops kept).1 tid := by
  intro ops
  induction ops with
  | nil => intro s kept h; exact h
  | cons op rest ih =>
    intro s kept h
    unfold process_waiting_go
    split
    · rcases hr : try_read s op.transaction_id op.variable_name with ⟨res, s'⟩
      have h2 := read_only_inv_try_read s tid op.transaction_id op.variable_name h
      rw [hr] at h2
      obtain ⟨htx, hni⟩ := h2
      cases res with
      | none => exact ih s' (kept ++ [op]) ⟨htx, hni⟩
      | some value =>
        refine ih _ kept ⟨?_, hni⟩
        refine read_only_txn_update_pres ?_ htx
        intro x
        exact ⟨rfl, rfl⟩
    · exact ih s kept h

/-- `_process_waiting_operations` preserves the read-only invariant. -/
theorem read_only_inv_pwo (s : TMState) (tid : String)
    (h : read_only_inv s tid) : read_only_inv (process_waiting_operations s) tid := by
  unfold process_waiting_operations
  obtain ⟨htx, hni⟩ := read_only_inv_go tid s.waiting_operations s [] h
  exact ⟨htx, hni⟩

/-- A whole step of the command loop preserves the read-only invariant
of a transaction the command does not write for. -/
theorem read_only_inv_step (s : TMState) (tid : String) (c : Command)
    (hc : ∀ v value, ¬ c = Command.write_cmd tid v value)
    (h : read_only_inv s tid) : read_only_inv (step s c) tid := by
  have h' : read_only_inv { s with current_time := s.current_time + 1 } tid := h
  cases c with
  | begin_txn t' =>
    obtain ⟨htx, hni⟩ := h'
    constructor
    · intro p hp hptid
      rcases mem_aupsert hp with hp' | rfl
      · exact htx p hp' hptid
      · exact ⟨rfl, rfl⟩
    · exact hni
  | read_cmd t' v => exact read_only_inv_tm_read _ tid t' v h'
  | write_cmd t' v value =>
    refine read_only_inv_tm_write _ tid t' v value ?_ h'
    intro hc'
    exact hc v value (by rw [hc'])
  | end_txn t' => exact read_only_inv_end _ tid t' h'
  | fail_cmd k =>
    obtain ⟨htx, hni⟩ := h'
    show read_only_inv (tm_fail_site _ k) tid
    unfold tm_fail_site
    split
    · exact ⟨htx, hni⟩
    · exact ⟨htx, hni⟩
  | recover_cmd k =>
    show read_only_inv (tm_recover_site _ k) tid
    unfold tm_recover_site
    refine read_only_inv_pwo _ tid ?_
    split
    · exact h'
    · exact h'
  | dump_cmd => exact h'

/-- Commands that write on behalf of a given transaction. -/
def is_write_for (tid : String) : Command → Bool
  | Command.write_cmd t _ _ => t = tid
  | _ => false

theorem not_write_of_flag {tid : String} {c : Command}
    (h : is_write_for tid c = false) :
    ∀ v value, ¬ c = Command.write_cmd tid v value := by
  intro v value hc
  subst hc
  exact of_decide_eq_false h rfl

/-- A transaction with an empty write set and no incoming edge never
trips `_would_create_dangerous_cycle`. -/
theorem cycle_check_read_only (s : TMState) (tid : String) (txn : Transaction)
    (hlook : alookup s.transactions tid = some txn)
    (hws : txn.write_set = [])
    (hni : ∀ e ∈ s.edges, alookup e.2 tid = none) :
    would_create_dangerous_cycle s tid = false := by
  unfold would_create_dangerous_cycle
  rw [hlook]
  dsimp only
  rw [hws]
  split
  · rename_i h
    exact absurd h (by simp)
  · split
    · rename_i h
      rcases List.any_eq_true.mp h with ⟨a, ha, _⟩
      rcases List.mem_filterMap.mp ha with ⟨p, hp, hfp⟩
      rw [hni p hp] at hfp
      simp at hfp
    · rw [List.any_eq_false]
      intro x hx
      rcases List.mem_filterMap.mp hx with ⟨p, hp, hfp⟩
      rw [hni p hp] at hfp
      simp at hfp

/-- Under the read-only invariant, an active transaction passes every
validation rule of `end_transaction` and commits. -/
theorem end_read_only_commits (s : TMState) (tid : String) (txn : Transaction)
    (hlook : alookup s.transactions tid = some txn)
    (hact : txn.status = TransactionStatus.active)
    (h : read_only_inv s tid) :
    end_transaction s tid =
      emit (commit_transaction s tid) (OutputLine.commits tid) := by
  obtain ⟨htx, hni⟩ := h
  have hro := htx (tid, txn) (alookup_mem hlook) rfl
  have hsv : site_failure_violation s txn = false := by
    unfold site_failure_violation
    rw [hro.2]
    rfl
  have hfc : first_committer_violation s txn tid = false := by
    unfold first_committer_violation
    rw [hro.1]
    rfl
  have hcy := cycle_check_read_only s tid txn hlook hro.1 hni
  unfold end_transaction
  rw [hlook]
  dsimp only
  rw [hact, hsv, hfc, hcy]
  rfl

/-- The read-only invariant holds in the initial state. -/
theorem read_only_inv_initial (tid : String) : read_only_inv initial_state tid :=
  ⟨fun p hp _ => absurd hp (List.not_mem_nil p),
   fun e he => absurd he (List.not_mem_nil e)⟩

/-- The read-only invariant holds along any run whose commands never
write on behalf of the transaction. -/
theorem read_only_inv_run_from (cmds : List Command) (tid : String) (s : TMState)
    (hw : cmds.all (fun c => ! is_write_for tid c) = true)
    (h : read_only_inv s tid) : read_only_inv (run_from s cmds) tid := by
  induction cmds generalizing s with
  | nil => exact h
  | cons c rest ih =>
    rw [List.all_cons, Bool.and_eq_true] at hw
    rcases hw with ⟨hc, hrest⟩
    have hc' : is_write_for tid c = false := by
      cases hcc : is_write_for tid c
      · rfl
      · rw [hcc] at hc
        exact absurd hc (by decide)
    exact ih _ hrest (read_only_inv_step s tid c (not_write_of_flag hc') h)

/-- C6: the claim that a transaction issuing only reads never aborts is
false — a read that can find no site is parked, and a transaction still
waiting when its `end` arrives is aborted.  Here T1 only reads the
unreplicated variable x3, whose single host (site 4) is down, and ends
aborted. -/
theorem C6_counterexample :
    ([Command.fail_cmd 4, Command.begin_txn "T1", Command.read_cmd "T1" 3,
        Command.end_txn "T1"].all
      (fun c => ! is_write_for "T1" c)) = true ∧
    transaction_status (run [Command.fail_cmd 4, Command.begin_txn "T1",
        Command.read_cmd "T1" 3, Command.end_txn "T1"]) "T1" =
      some TransactionStatus.aborted :=
  ⟨by decide, by decide⟩

/-- C6 (amended): a transaction on whose behalf no write command is ever
issued and that is still `active` when its `end` arrives always commits:
it passes the site-failure rule, First Committer Wins, and the
dangerous-cycle check, so `end_transaction` commits it.  The original
claim fails only for read-only transactions parked `waiting` at their
`end`. -/
theorem C6_read_only_active_commits (cmds : List Command) (tid : String)
    (txn : Transaction)
    (hw : cmds.all (fun c => ! is_write_for tid c) = true)
    (hlook : alookup (run cmds).transactions tid = some txn)
    (hact : txn.status = TransactionStatus.active) :
    transaction_status (run (cmds ++ [Command.end_txn tid])) tid =
      some TransactionStatus.committed := by
  have hinv : read_only_inv (run cmds) tid :=
    read_only_inv_run_from cmds tid initial_state hw (read_only_inv_initial tid)
  have hrun : run (cmds ++ [Command.end_txn tid]) =
      step (run cmds) (Command.end_txn tid) := by
    unfold run run_from
    rw [List.foldl_append]
    rfl
  rw [hrun]
  have hlook' : alookup ({ run cmds with
      current_time := (run cmds).current_time + 1 } : TMState).transactions tid =
      some txn := hlook
  have hinv' : read_only_inv ({ run cmds with
      current_time := (run cmds).current_time + 1 } : TMState) tid := hinv
  have hend := end_read_only_commits _ tid txn hlook' hact hinv'
  show transaction_status (end_transaction { run cmds with
      current_time := (run cmds).current_time + 1 } tid) tid =
    some TransactionStatus.committed
  rw [hend]
  show transaction_status (commit_transaction { run cmds with
      current_time := (run cmds).current_time + 1 } tid) tid =
    some TransactionStatus.committed
  exact commit_transaction_status _ tid txn hlook'

/-- The amended C6 theorem at a concrete trace: T1 begins, does nothing
else, and commits at its `end`. -/
theorem C6_witness :
    transaction_status (run ([Command.begin_txn "T1"] ++ [Command.end_txn "T1"]))
      "T1" = some TransactionStatus.committed :=
  C6_read_only_active_commits [Command.begin_txn "T1"] "T1"
    ⟨"T1", 1, TransactionStatus.active, [], [], [], [], [], [], none, none⟩
    (by decide) (by decide) rfl

/-! ### Claim C8 -/

/-- All failure-record times of a site are bounded by `T`. -/
def site_records_le (T : Nat) (site : Site) : Prop :=
  ∀ r ∈ site.failure_history, r.fail_time ≤ T ∧ r.recover_time.getD 0 ≤ T

/-- All stored commit times of a site are bounded by `T`. -/
def site_versions_le (T : Nat) (site : Site) : Prop :=
  ∀ var ∈ site.vars, ∀ ver ∈ var.versions, ver.commit_time ≤ T

/-- Once a site has recovered (positive last recovery time), the
readability flag of each of its replicated variables is set exactly when
some stored version postdates that recovery. -/
def site_flag_iff (site : Site) : Prop :=
  ∀ var ∈ site.vars, var.index % 2 = 0 → 0 < site.get_last_recovery_time →
    (var.is_readable = true ↔
      var.versions.any
        (fun ver => decide (site.get_last_recovery_time < ver.commit_time)) = true)

/-- The C8 invariant over a site list, with separate bounds for the
failure records and the versions. -/
def sites_inv8 (Tr Tv : Nat) (sites : List Site) : Prop :=
  ∀ site ∈ sites,
    site_records_le Tr site ∧ site_versions_le Tv site ∧ site_flag_iff site

theorem site_records_le_mono {T T' : Nat} {site : Site}
    (h : site_records_le T site) (hT : T ≤ T') : site_records_le T' site :=
  fun r hr => ⟨le_trans (h r hr).1 hT, le_trans (h r hr).2 hT⟩

theorem site_versions_le_mono {T T' : Nat} {site : Site}
    (h : site_versions_le T site) (hT : T ≤ T') : site_versions_le T' site :=
  fun var hv ver hver => le_trans (h var hv ver hver) hT

theorem sites_inv8_mono {Tr Tv Tr' Tv' : Nat} {sites : List Site}
    (h : sites_inv8 Tr Tv sites) (h1 : Tr ≤ Tr') (h2 : Tv ≤ Tv') :
    sites_inv8 Tr' Tv' sites :=
  fun site hs => ⟨site_records_le_mono (h site hs).1 h1,
    site_versions_le_mono (h site hs).2.1 h2, (h site hs).2.2⟩

/-- The last recovery time is one of the recorded times. -/
theorem last_recovery_le {T : Nat} {site : Site} (h : site_records_le T site) :
    site.get_last_recovery_time ≤ T := by
  unfold Site.get_last_recovery_time
  split
  · exact Nat.zero_le T
  · rename_i r hr
    split
    · exact Nat.zero_le T
    · rename_i t ht
      rcases List.mem_getLast?_eq_getLast hr with ⟨hne, heq⟩
      have hmem : r ∈ site.failure_history := by
        rw [heq]
        exact List.getLast_mem hne
      have hb := (h r hmem).2
      rw [ht] at hb
      exact hb

/-- `Site.write_variable` leaves the failure records alone. -/
theorem write_variable_records_le {T : Nat} {site : Site} {v : Nat} {value : Int}
    {ct : Nat} {tid : String} (h : site_records_le T site) :
    site_records_le T (site.write_variable v value ct tid) := by
  unfold Site.write_variable
  split
  · exact h
  · exact h

/-- `Site.write_variable` stamps the new version with the commit time
and keeps the old ones. -/
theorem write_variable_versions_le {T ct : Nat} {site : Site} {v : Nat}
    {value : Int} {tid : String} (h : site_versions_le T site) (hct : T ≤ ct) :
    site_versions_le ct (site.write_variable v value ct tid) := by
  unfold Site.write_variable
  split
  · exact site_versions_le_mono h hct
  · intro var hv ver hver
    rcases List.mem_map.mp hv with ⟨w, hw, rfl⟩
    by_cases hwi : w.index = v
    · rw [if_pos hwi] at hver
      rcases List.mem_cons.mp hver with rfl | hver'
      · exact le_refl ct
      · exact le_trans (h w hw ver hver') hct
    · rw [if_neg hwi] at hver
      exact le_trans (h w hw ver hver) hct

/-- `Site.write_variable` keeps the flag equivalence: it sets the flag
and simultaneously stores a version newer than any recovery. -/
theorem write_variable_flag_iff {T ct : Nat} {site : Site} {v : Nat}
    {value : Int} {tid : String} (hrec : site_records_le T site) (hT : T < ct)
    (hf : site_flag_iff site) :
    site_flag_iff (site.write_variable v value ct tid) := by
  unfold Site.write_variable
  split
  · exact hf
  · intro var hv hidx hpos
    rcases List.mem_map.mp hv with ⟨w, hw, rfl⟩
    by_cases hwi : w.index = v
    · rw [if_pos hwi] at hidx ⊢
      constructor
      · intro _
        refine List.any_eq_true.mpr ⟨⟨value, ct, tid⟩, List.mem_cons_self _ _, ?_⟩
        have hR : site.get_last_recovery_time ≤ T := last_recovery_le hrec
        exact decide_eq_true (lt_of_le_of_lt hR hT)
      · intro _
        rfl
    · rw [if_neg hwi] at hidx ⊢
      exact hf w hw hidx hpos

/-- Failing a site zeroes its last recovery time (the freshly appended
record is still open). -/
theorem fail_last_recovery (site : Site) (t : Nat) :
    (site.fail t).get_last_recovery_time = 0 := by
  unfold Site.fail Site.get_last_recovery_time
  rw [List.getLast?_append_cons]
  rfl

/-- Failing a site at the current time preserves the C8 site facts. -/
theorem fail_site_inv8 {Tr Tv now : Nat} {site : Site} (hTr : Tr ≤ now)
    (hTv : Tv ≤ now)
    (h : site_records_le Tr site ∧ site_versions_le Tv site ∧ site_flag_iff site) :
    site_records_le now (site.fail now) ∧ site_versions_le now (site.fail now) ∧
      site_flag_iff (site.fail now) := by
  obtain ⟨hr, hv, hf⟩ := h
  refine ⟨?_, site_versions_le_mono hv hTv, ?_⟩
  · intro r hrm
    rcases List.mem_append.mp hrm with h' | h'
    · exact ⟨le_trans (hr r h').1 hTr, le_trans (hr r h').2 hTr⟩
    · rcases List.mem_singleton.mp h' with rfl
      exact ⟨le_refl now, Nat.zero_le now⟩
  · intro var hvm hidx hpos
    rw [fail_last_recovery] at hpos
    exact absurd hpos (lt_irrefl 0)

/-- Every entry of `set_last_recover` comes from the original history,
with its recovery time either kept or replaced by the new stamp. -/
theorem mem_set_last_recover {hist : List FailureRecord} {t : Nat}
    {r : FailureRecord} (h : r ∈ set_last_recover hist t) :
    ∃ r0 ∈ hist, r.fail_time = r0.fail_time ∧
      (r.recover_time = r0.recover_time ∨ r.recover_time = some t) := by
  induction hist with
  | nil => cases h
  | cons a rest ih =>
    cases rest with
    | nil =>
      rcases List.mem_singleton.mp h with rfl
      exact ⟨a, List.mem_cons_self a [], rfl, Or.inr rfl⟩
    | cons b rest2 =>
      rcases List.mem_cons.mp h with rfl | h'
      · exact ⟨r, List.mem_cons_self _ _, rfl, Or.inl rfl⟩
      · rcases ih h' with ⟨r0, hr0, hfail, hrec⟩
        exact ⟨r0, List.mem_cons_of_mem _ hr0, hfail, hrec⟩

/-- `set_last_recover` on a non-empty history ends with a record closed
at the new stamp. -/
theorem last_recover_of_set (hist : List FailureRecord) (t : Nat)
    (hne : hist ≠ []) :
    ∃ ft, (set_last_recover hist t).getLast? = some ⟨ft, some t⟩ := by
  induction hist with
  | nil => exact absurd rfl hne
  | cons a rest ih =>
    cases rest with
    | nil => exact ⟨a.fail_time, rfl⟩
    | cons b rest2 =>
      rcases ih (by simp) with ⟨ft, hft⟩
      refine ⟨ft, ?_⟩
      have hshape : set_last_recover (a :: b :: rest2) t =
          a :: set_last_recover (b :: rest2) t := rfl
      rw [hshape]
      cases hL : set_last_recover (b :: rest2) t with
      | nil =>
        rw [hL] at hft
        cases hft
      | cons c L =>
        rw [hL] at hft
        rw [List.getLast?_cons_cons]
        exact hft

/-- Recovering a site with a failure on record sets its last recovery
time to the recovery stamp. -/
theorem recover_last_recovery (site : Site) (t : Nat)
    (hne : site.failure_history ≠ []) :
    (site.recover t).get_last_recovery_time = t := by
  unfold Site.recover Site.get_last_recovery_time
  rcases last_recover_of_set site.failure_history t hne with ⟨ft, hft⟩
  dsimp only
  rw [hft]

/-- Recovering a site at the current time preserves the C8 site facts:
flags of replicated variables are cleared and no stored version can
postdate the recovery. -/
theorem recover_site_inv8 {Tr Tv now : Nat} {site : Site} (hTr : Tr < now)
    (hTv : Tv < now)
    (h : site_records_le Tr site ∧ site_versions_le Tv site ∧ site_flag_iff site) :
    site_records_le now (site.recover now) ∧
      site_versions_le now (site.recover now) ∧
      site_flag_iff (site.recover now) := by
  obtain ⟨hr, hv, hf⟩ := h
  refine ⟨?_, ?_, ?_⟩
  · intro r hrm
    rcases mem_set_last_recover hrm with ⟨r0, hr0, hfail, hrec⟩
    refine ⟨?_, ?_⟩
    · rw [hfail]
      exact le_trans (hr r0 hr0).1 (le_of_lt hTr)
    · rcases hrec with hk | hk
      · rw [hk]
        exact le_trans (hr r0 hr0).2 (le_of_lt hTr)
      · rw [hk]
        exact le_refl now
  · intro var hvm ver hver
    rcases List.mem_map.mp hvm with ⟨w, hw, rfl⟩
    by_cases hwi : w.index % 2 = 0
    · rw [if_pos hwi] at hver
      exact le_trans (hv w hw ver hver) (le_of_lt hTv)
    · rw [if_neg hwi] at hver
      exact le_trans (hv w hw ver hver) (le_of_lt hTv)
  · by_cases hne : site.failure_history = []
    · intro var hvm hidx hpos
      have hR : (site.recover now).get_last_recovery_time = 0 := by
        unfold Site.recover Site.get_last_recovery_time
        rw [hne]
        rfl
      rw [hR] at hpos
      exact absurd hpos (lt_irrefl 0)
    · have hR := recover_last_recovery site now hne
      intro var hvm hidx hpos
      rw [hR]
      rcases List.mem_map.mp hvm with ⟨w, hw, rfl⟩
      by_cases hwi : w.index % 2 = 0
      · rw [if_pos hwi]
        constructor
        · intro hfl
          exact Bool.noConfusion hfl
        · intro hany
          rcases List.any_eq_true.mp hany with ⟨ver, hver, hd⟩
          have hb := hv w hw ver hver
          have hlt := of_decide_eq_true hd
          omega
      · rw [if_neg hwi] at hidx
        exact absurd hidx hwi

/-- `_abort_transaction` never touches the sites. -/
theorem abort_transaction_sites (s : TMState) (tid : String) (r : AbortReason) :
    (abort_transaction s tid r).sites = s.sites := by
  unfold abort_transaction
  split
  · rfl
  · rfl

/-- `_abort_transaction` never touches the clock. -/
theorem abort_transaction_time (s : TMState) (tid : String) (r : AbortReason) :
    (abort_transaction s tid r).current_time = s.current_time := by
  unfold abort_transaction
  split
  · rfl
  · rfl

/-- `TransactionManager.read` never touches the sites. -/
theorem tm_read_sites (s : TMState) (tid : String) (v : Nat) :
    (tm_read s tid v).2.sites = s.sites := by
  unfold tm_read
  split
  · rfl
  · split
    · rfl
    · split
      · rfl
      · split
        · rfl
        · dsimp only
          split
          · rfl
          · split
            · split
              · exact abort_transaction_sites s tid AbortReason.no_valid_replica
              · rfl
            · rfl

/-- `TransactionManager.read` never touches the clock. -/
theorem tm_read_time (s : TMState) (tid : String) (v : Nat) :
    (tm_read s tid v).2.current_time = s.current_time := by
  unfold tm_read
  split
  · rfl
  · split
    · rfl
    · split
      · rfl
      · split
        · rfl
        · dsimp only
          split
          · rfl
          · split
            · split
              · exact abort_transaction_time s tid AbortReason.no_valid_replica
              · rfl
            · rfl

/-- `TransactionManager.write` never touches the sites. -/
theorem tm_write_sites (s : TMState) (tid : String) (v : Nat) (value : Int) :
    (tm_write s tid v value).sites = s.sites := by
  unfold tm_write
  split
  · rfl
  · split
    · rfl
    · dsimp only
      split
      · rfl
      · rfl

/-- `TransactionManager.write` never touches the clock. -/
theorem tm_write_time (s : TMState) (tid : String) (v : Nat) (value : Int) :
    (tm_write s tid v value).current_time = s.current_time := by
  unfold tm_write
  split
  · rfl
  · split
    · rfl
    · dsimp only
      split
      · rfl
      · rfl

/-- `_try_read` never touches the clock. -/
theorem try_read_time (s : TMState) (tid : String) (v : Nat) :
    (try_read s tid v).2.current_time = s.current_time := by
  unfold try_read
  split
  · rfl
  · split
    · rfl
    · rfl

/-- The waiting-queue walk never touches the sites. -/
theorem pwg_sites :
    ∀ (ops : List WaitingOperation) (s : TMState) (kept : List WaitingOperation),
      (process_waiting_go s ops kept).1.sites = s.sites := by
  intro ops
  induction ops with
  | nil => intro s kept; rfl
  | cons op rest ih =>
    intro s kept
    unfold process_waiting_go
    split
    · dsimp only
      split
      · rw [ih]
        exact try_read_sites s op.transaction_id op.variable_name
      · rw [ih]
        exact try_read_sites s op.transaction_id op.variable_name
    · exact ih s kept

/-- The waiting-queue walk never touches the clock. -/
theorem pwg_time :
    ∀ (ops : List WaitingOperation) (s : TMState) (kept : List WaitingOperation),
      (process_waiting_go s ops kept).1.current_time = s.current_time := by
  intro ops
  induction ops with
  | nil => intro s kept; rfl
  | cons op rest ih =>
    intro s kept
    unfold process_waiting_go
    split
    · dsimp only
      split
      · rw [ih]
        exact try_read_time s op.transaction_id op.variable_name
      · rw [ih]
        exact try_read_time s op.transaction_id op.variable_name
    · exact ih s kept

/-- `_process_waiting_operations` never touches the sites. -/
theorem pwo_sites (s : TMState) :
    (process_waiting_operations s).sites = s.sites :=
  pwg_sites s.waiting_operations s []

/-- `_process_waiting_operations` never touches the clock. -/
theorem pwo_time (s : TMState) :
    (process_waiting_operations s).current_time = s.current_time :=
  pwg_time s.waiting_operations s []

/-- One commit-loop iteration preserves the C8 invariant when the commit
time is newer than every failure record. -/
theorem commit_apply_inv8 {Tr ct : Nat} {tid : String} (hT : Tr < ct)
    {s' : TMState} {p : Nat × Int × List Nat}
    (h : sites_inv8 Tr ct s'.sites) :
    sites_inv8 Tr ct (commit_apply ct tid s' p).sites := by
  intro site hs
  have hs' : site ∈ s'.sites.map (fun (w : Site) =>
      if w.site_id ∈ p.2.2.filter (fun sid =>
          decide (sid ∈ up_sites_for_variable s'.sites p.1)) then
        w.write_variable p.1 p.2.1 ct tid
      else w) := hs
  rcases List.mem_map.mp hs' with ⟨w, hw, rfl⟩
  rcases h w hw with ⟨hr, hv, hf⟩
  by_cases hin : w.site_id ∈ p.2.2.filter (fun sid =>
      decide (sid ∈ up_sites_for_variable s'.sites p.1))
  · rw [if_pos hin]
    exact ⟨write_variable_records_le hr,
      write_variable_versions_le hv (le_refl ct),
      write_variable_flag_iff hr hT hf⟩
  · rw [if_neg hin]
    exact ⟨hr, hv, hf⟩

/-- The whole commit loop preserves the C8 invariant. -/
theorem commit_fold_inv8 {Tr ct : Nat} {tid : String} (hT : Tr < ct)
    (ws : List (Nat × Int × List Nat)) (s' : TMState)
    (h : sites_inv8 Tr ct s'.sites) :
    sites_inv8 Tr ct ((ws.foldl (commit_apply ct tid) s')).sites := by
  induction ws generalizing s' with
  | nil => exact h
  | cons p rest ih => exact ih _ (commit_apply_inv8 hT h)

/-- `_commit_transaction` preserves the C8 invariant. -/
theorem commit_transaction_inv8 {Tr : Nat} (s : TMState) (tid : String)
    (hT : Tr < s.current_time) (h : sites_inv8 Tr s.current_time s.sites) :
    sites_inv8 Tr s.current_time (commit_transaction s tid).sites := by
  unfold commit_transaction
  split
  · exact h
  · rename_i txn hlook
    exact commit_fold_inv8 hT txn.write_set s h

/-- `_commit_transaction` never touches the clock. -/
theorem commit_transaction_time (s : TMState) (tid : String) :
    (commit_transaction s tid).current_time = s.current_time := by
  unfold commit_transaction
  split
  · rfl
  · rename_i txn hlook
    exact foldl_preserves (fun st => st.current_time)
      (commit_apply s.current_time tid) (fun _ _ => rfl) txn.write_set s

/-- `end_transaction` preserves the C8 invariant. -/
theorem end_transaction_inv8 {Tr : Nat} (s : TMState) (tid : String)
    (hT : Tr < s.current_time) (h : sites_inv8 Tr s.current_time s.sites) :
    sites_inv8 Tr s.current_time (end_transaction s tid).sites := by
  unfold end_transaction
  split
  · exact h
  · split
    · exact h
    · split
      · rw [abort_transaction_sites]
        exact h
      · split
        · show sites_inv8 Tr s.current_time
            (abort_transaction s tid AbortReason.site_failed_after_write).sites
          rw [abort_transaction_sites]
          exact h
        · split
          · show sites_inv8 Tr s.current_time
              (abort_transaction s tid AbortReason.first_committer_wins).sites
            rw [abort_transaction_sites]
            exact h
          · split
            · show sites_inv8 Tr s.current_time
                (abort_transaction s tid AbortReason.ssi_dangerous_cycle).sites
              rw [abort_transaction_sites]
              exact h
            · exact commit_transaction_inv8 s tid hT h

/-- `end_transaction` never touches the clock. -/
theorem end_transaction_time (s : TMState) (tid : String) :
    (end_transaction s tid).current_time = s.current_time := by
  unfold end_transaction
  split
  · rfl
  · split
    · rfl
    · split
      · rw [abort_transaction_time]
        rfl
      · split
        · show (abort_transaction s tid
              AbortReason.site_failed_after_write).current_time = s.current_time
          rw [abort_transaction_time]
        · split
          · show (abort_transaction s tid
                AbortReason.first_committer_wins).current_time = s.current_time
            rw [abort_transaction_time]
          · split
            · show (abort_transaction s tid
                  AbortReason.ssi_dangerous_cycle).current_time = s.current_time
              rw [abort_transaction_time]
            · show (commit_transaction s tid).current_time = s.current_time
              rw [commit_transaction_time]

/-- No dispatched command changes the clock; only the per-line tick in
`process_line` does. -/
theorem dispatch_time (s : TMState) (c : Command) :
    (dispatch s c).current_time = s.current_time := by
  cases c with
  | begin_txn tid => rfl
  | read_cmd tid v => exact tm_read_time s tid v
  | write_cmd tid v value => exact tm_write_time s tid v value
  | end_txn tid => exact end_transaction_time s tid
  | fail_cmd sid =>
    show (tm_fail_site s sid).current_time = s.current_time
    unfold tm_fail_site
    split
    · rfl
    · rfl
  | recover_cmd sid =>
    show (tm_recover_site s sid).current_time = s.current_time
    unfold tm_recover_site
    dsimp only
    rw [pwo_time]
    split
    · rfl
    · rfl
  | dump_cmd => rfl

/-- Dispatching any command preserves the C8 invariant, provided every
recorded time predates the current clock. -/
theorem dispatch_inv8 (s : TMState) (c : Command) (Tr : Nat)
    (hT : Tr < s.current_time) (h : sites_inv8 Tr Tr s.sites) :
    sites_inv8 s.current_time s.current_time (dispatch s c).sites := by
  have hle : Tr ≤ s.current_time := le_of_lt hT
  cases c with
  | begin_txn tid => exact sites_inv8_mono h hle hle
  | read_cmd tid v =>
    rw [show (dispatch s (Command.read_cmd tid v)).sites = (tm_read s tid v).2.sites
      from rfl, tm_read_sites]
    exact sites_inv8_mono h hle hle
  | write_cmd tid v value =>
    rw [show (dispatch s (Command.write_cmd tid v value)).sites =
      (tm_write s tid v value).sites from rfl, tm_write_sites]
    exact sites_inv8_mono h hle hle
  | end_txn tid =>
    have hend := end_transaction_inv8 s tid hT (sites_inv8_mono h (le_refl Tr) hle)
    exact sites_inv8_mono hend hle (le_refl _)
  | fail_cmd sid =>
    show sites_inv8 s.current_time s.current_time (tm_fail_site s sid).sites
    unfold tm_fail_site
    split
    · intro site hs
      rcases List.mem_map.mp hs with ⟨w, hw, rfl⟩
      by_cases hid : w.site_id = sid
      · rw [if_pos hid]
        exact fail_site_inv8 hle hle (h w hw)
      · rw [if_neg hid]
        exact (sites_inv8_mono h hle hle) w hw
    · exact sites_inv8_mono h hle hle
  | recover_cmd sid =>
    show sites_inv8 s.current_time s.current_time (tm_recover_site s sid).sites
    unfold tm_recover_site
    dsimp only
    rw [pwo_sites]
    split
    · intro site hs
      rcases List.mem_map.mp hs with ⟨w, hw, rfl⟩
      by_cases hid : w.site_id = sid
      · rw [if_pos hid]
        exact recover_site_inv8 hT hT (h w hw)
      · rw [if_neg hid]
        exact (sites_inv8_mono h hle hle) w hw
    · exact sites_inv8_mono h hle hle
  | dump_cmd => exact sites_inv8_mono h hle hle

/-- The C8 invariant over a whole state. -/
def INV8 (s : TMState) : Prop :=
  sites_inv8 s.current_time s.current_time s.sites

/-- One command-loop step preserves the C8 invariant: the tick makes the
new clock strictly newer than everything recorded so far. -/
theorem inv8_step (s : TMState) (c : Command) (h : INV8 s) : INV8 (step s c) := by
  have hd := dispatch_inv8 { s with current_time := s.current_time + 1 } c
    s.current_time (Nat.lt_succ_self _) h
  unfold INV8 step
  rw [dispatch_time]
  exact hd

/-- The C8 invariant holds in the initial state. -/
theorem inv8_initial : INV8 initial_state := by
  unfold INV8 sites_inv8 site_records_le site_versions_le site_flag_iff
  decide

theorem inv8_run_from (cmds : List Command) :
    ∀ (s : TMState), INV8 s → INV8 (run_from s cmds) := by
  induction cmds with
  | nil => intro s h; exact h
  | cons c rest ih => intro s h; exact ih _ (inv8_step s c h)

/-- The C8 invariant holds in every reachable state. -/
theorem inv8_run (cmds : List Command) : INV8 (run cmds) :=
  inv8_run_from cmds initial_state inv8_initial

/-- C8: the claimed equivalence fails in the initial state, which the
claim explicitly includes: every replicated variable starts with its
readability flag true, yet its only version is stamped 0, which is not
strictly greater than the latest recovery time 0 of a site that never
recovered. -/
theorem C8_counterexample :
    ∃ site ∈ initial_state.sites, ∃ var ∈ site.vars,
      var.index % 2 = 0 ∧ var.is_readable = true ∧
      var.versions.any
        (fun ver => decide (site.get_last_recovery_time < ver.commit_time)) =
        false := by
  decide

/-- C8 (amended): in every reachable state, at every site whose latest
recovery time is positive (it has recovered at least once and has not
failed again since), the readability flag of a replicated variable is
true exactly when the site stores some version with commit time strictly
above that recovery time.  The unconditional claim fails only where the
recovery time is 0: at start and behind an open failure record. -/
theorem C8_flag_iff_amended (cmds : List Command) (site : Site) (var : Variable)
    (hs : site ∈ (run cmds).sites) (hv : var ∈ site.vars)
    (hrep : var.index % 2 = 0) (hrec : 0 < site.get_last_recovery_time) :
    var.is_readable = true ↔
      var.versions.any
        (fun ver => decide (site.get_last_recovery_time < ver.commit_time)) =
        true :=
  ((inv8_run cmds) site hs).2.2 var hv hrep hrec

/-- The amended C8 theorem at a concrete trace: after site 1 fails and
recovers, the flag of x2 there is false and indeed no version postdates
the recovery. -/
theorem C8_witness :
    ((⟨2, [⟨20, 0, "init"⟩], false⟩ : Variable).is_readable = true ↔
      (⟨2, [⟨20, 0, "init"⟩], false⟩ : Variable).versions.any
        (fun ver => decide ((⟨1, true,
          [⟨2, [⟨20, 0, "init"⟩], false⟩, ⟨4, [⟨40, 0, "init"⟩], false⟩,
           ⟨6, [⟨60, 0, "init"⟩], false⟩, ⟨8, [⟨80, 0, "init"⟩], false⟩,
           ⟨10, [⟨100, 0, "init"⟩], false⟩, ⟨12, [⟨120, 0, "init"⟩], false⟩,
           ⟨14, [⟨140, 0, "init"⟩], false⟩, ⟨16, [⟨160, 0, "init"⟩], false⟩,
           ⟨18, [⟨180, 0, "init"⟩], false⟩, ⟨20, [⟨200, 0, "init"⟩], false⟩],
          [⟨1, some 2⟩]⟩ : Site).get_last_recovery_time < ver.commit_time)) =
        true) :=
  C8_flag_iff_amended [Command.fail_cmd 1, Command.recover_cmd 1]
    ⟨1, true,
      [⟨2, [⟨20, 0, "init"⟩], false⟩, ⟨4, [⟨40, 0, "init"⟩], false⟩,
       ⟨6, [⟨60, 0, "init"⟩], false⟩, ⟨8, [⟨80, 0, "init"⟩], false⟩,
       ⟨10, [⟨100, 0, "init"⟩], false⟩, ⟨12, [⟨120, 0, "init"⟩], false⟩,
       ⟨14, [⟨140, 0, "init"⟩], false⟩, ⟨16, [⟨160, 0, "init"⟩], false⟩,
       ⟨18, [⟨180, 0, "init"⟩], false⟩, ⟨20, [⟨200, 0, "init"⟩], false⟩],
      [⟨1, some 2⟩]⟩
    ⟨2, [⟨20, 0, "init"⟩], false⟩ (by decide) (by decide) (by decide) (by decide)

/-! ### Claim C1 -/

/-- A successful snapshot walk answers with a stored version committed
at or before the transaction start. -/
theorem can_read_loop_version (site : Site) (start : Nat)
    (vers : List VariableVersion) (value : Int)
    (h : site.can_read_loop start vers = (true, some value)) :
    ∃ ver ∈ vers, ver.commit_time ≤ start ∧ ver.value = value := by
  induction vers with
  | nil => simp [Site.can_read_loop] at h
  | cons ver rest ih =>
    unfold Site.can_read_loop at h
    split at h
    · rename_i hle
      split at h
      · injection h with h1 h2
        exact ⟨ver, List.mem_cons_self _ _, hle, Option.some.inj h2⟩
      · injection h with h1 h2
        exact Bool.noConfusion h1
    · rcases ih h with ⟨ver', hmem, hle', hval⟩
      exact ⟨ver', List.mem_cons_of_mem _ hmem, hle', hval⟩

/-- A successful `Site.can_read_variable` answers with a stored version
of the variable committed at or before the transaction start. -/
theorem can_read_some_version (site : Site) (v start : Nat) (value : Int)
    (h : site.can_read_variable v start = (true, some value)) :
    ∃ var, site.lookup_variable v = some var ∧ ∃ ver ∈ var.versions,
      ver.commit_time ≤ start ∧ ver.value = value := by
  unfold Site.can_read_variable at h
  split at h
  · exact Bool.noConfusion (congrArg Prod.fst h)
  · split at h
    · exact Bool.noConfusion (congrArg Prod.fst h)
    · rename_i var hvar
      refine ⟨var, hvar, ?_⟩
      split at h
      · dsimp only at h
        injection h with h1 h2
        unfold Variable.get_value_at_time at h2
        rcases hf : var.versions.find?
            (fun ver => decide (ver.commit_time ≤ start)) with _ | ver
        · rw [hf] at h2
          cases h2
        · rw [hf] at h2
          have hp := List.find?_some hf
          exact ⟨ver, List.mem_of_find?_eq_some hf, of_decide_eq_true hp,
            Option.some.inj h2⟩
      · dsimp only at h
        split at h
        · exact Bool.noConfusion (congrArg Prod.fst h)
        · exact can_read_loop_version site start var.versions value h

/-- Membership in a keyed append list is preserved. -/
theorem mem_getD_aappend {α γ : Type} [DecidableEq α]
    {l : List (α × List γ)} {k k' : α} {x q : γ}
    (h : q ∈ (alookup l k').getD []) :
    q ∈ (alookup (aappend l k x) k').getD [] := by
  rw [alookup_aappend]
  by_cases hk : k' = k
  · rw [if_pos hk]
    subst hk
    exact List.mem_append.mpr (Or.inl h)
  · rw [if_neg hk]
    exact h

/-- The appended entry is in the keyed append list. -/
theorem self_mem_aappend {α γ : Type} [DecidableEq α]
    {l : List (α × List γ)} {k : α} {x : γ} :
    x ∈ (alookup (aappend l k x) k).getD [] := by
  rw [alookup_aappend, if_pos rfl]
  exact List.mem_append.mpr (Or.inr (List.mem_singleton.mpr rfl))

/-- Every stored version is the initial seed or is registered in the
commit history of its variable (`_commit_transaction` appends the
history entry in the very iteration that writes the version). -/
def versions_registered (sites : List Site)
    (hist : List (Nat × List (Nat × String))) : Prop :=
  ∀ site ∈ sites, ∀ var ∈ site.vars, ∀ ver ∈ var.versions,
    ver.transaction_id = "init" ∨
      (ver.commit_time, ver.transaction_id) ∈ (alookup hist var.index).getD []

/-- `Site.write_variable` keeps versions registered against the history
appended with the matching entry. -/
theorem write_variable_registered {site : Site} {v : Nat} {value : Int}
    {ct : Nat} {tid : String} {hist : List (Nat × List (Nat × String))}
    (h : ∀ var ∈ site.vars, ∀ ver ∈ var.versions,
      ver.transaction_id = "init" ∨
        (ver.commit_time, ver.transaction_id) ∈ (alookup hist var.index).getD []) :
    ∀ var ∈ (site.write_variable v value ct tid).vars, ∀ ver ∈ var.versions,
      ver.transaction_id = "init" ∨
        (ver.commit_time, ver.transaction_id) ∈
          (alookup (aappend hist v (ct, tid)) var.index).getD [] := by
  unfold Site.write_variable
  split
  · intro var hv ver hver
    rcases h var hv ver hver with h' | h'
    · exact Or.inl h'
    · exact Or.inr (mem_getD_aappend h')
  · intro var hv ver hver
    rcases List.mem_map.mp hv with ⟨w, hw, rfl⟩
    by_cases hwi : w.index = v
    · rw [if_pos hwi] at hver ⊢
      subst hwi
      rcases List.mem_cons.mp hver with rfl | hver'
      · exact Or.inr self_mem_aappend
      · rcases h w hw ver hver' with h' | h'
        · exact Or.inl h'
        · exact Or.inr (mem_getD_aappend h')
    · rw [if_neg hwi] at hver ⊢
      rcases h w hw ver hver with h' | h'
      · exact Or.inl h'
      · exact Or.inr (mem_getD_aappend h')

/-- One commit-loop iteration keeps versions registered. -/
theorem commit_apply_registered {ct : Nat} {tid : String} {s' : TMState}
    {p : Nat × Int × List Nat}
    (h : versions_registered s'.sites s'.variable_commit_history) :
    versions_registered (commit_apply ct tid s' p).sites
      (commit_apply ct tid s' p).variable_commit_history := by
  intro site hs
  have hs' : site ∈ s'.sites.map (fun (w : Site) =>
      if w.site_id ∈ p.2.2.filter (fun sid =>
          decide (sid ∈ up_sites_for_variable s'.sites p.1)) then
        w.write_variable p.1 p.2.1 ct tid
      else w) := hs
  have hh : (commit_apply ct tid s' p).variable_commit_history =
      aappend s'.variable_commit_history p.1 (ct, tid) := rfl
  rw [hh]
  rcases List.mem_map.mp hs' with ⟨w, hw, rfl⟩
  by_cases hin : w.site_id ∈ p.2.2.filter (fun sid =>
      decide (sid ∈ up_sites_for_variable s'.sites p.1))
  · rw [if_pos hin]
    exact write_variable_registered (h w hw)
  · rw [if_neg hin]
    intro var hv ver hver
    rcases h w hw var hv ver hver with h' | h'
    · exact Or.inl h'
    · exact Or.inr (mem_getD_aappend h')

/-- The whole commit loop keeps versions registered. -/
theorem commit_fold_registered (ct : Nat) (tid : String)
    (ws : List (Nat × Int × List Nat)) (s' : TMState)
    (h : versions_registered s'.sites s'.variable_commit_history) :
    versions_registered ((ws.foldl (commit_apply ct tid) s')).sites
      ((ws.foldl (commit_apply ct tid) s')).variable_commit_history := by
  induction ws generalizing s' with
  | nil => exact h
  | cons p rest ih => exact ih _ (commit_apply_registered h)

/-- `_commit_transaction` keeps versions registered. -/
theorem commit_transaction_registered (s : TMState) (tid : String)
    (h : versions_registered s.sites s.variable_commit_history) :
    versions_registered (commit_transaction s tid).sites
      (commit_transaction s tid).variable_commit_history := by
  unfold commit_transaction
  split
  · exact h
  · rename_i txn hlook
    exact commit_fold_registered s.current_time tid txn.write_set s h

/-- `_abort_transaction` never touches the commit history. -/
theorem abort_transaction_history (s : TMState) (tid : String) (r : AbortReason) :
    (abort_transaction s tid r).variable_commit_history =
      s.variable_commit_history := by
  unfold abort_transaction
  split
  · rfl
  · rfl

/-- `end_transaction` keeps versions registered. -/
theorem end_transaction_registered (s : TMState) (tid : String)
    (h : versions_registered s.sites s.variable_commit_history) :
    versions_registered (end_transaction s tid).sites
      (end_transaction s tid).variable_commit_history := by
  unfold end_transaction
  split
  · exact h
  · split
    · exact h
    · split
      · show versions_registered (abort_transaction (emit s
            (OutputLine.aborts_still_waiting tid)) tid
            AbortReason.waiting_at_end).sites
          (abort_transaction (emit s (OutputLine.aborts_still_waiting tid)) tid
            AbortReason.waiting_at_end).variable_commit_history
        rw [abort_transaction_sites, abort_transaction_history]
        exact h
      · split
        · show versions_registered (abort_transaction s tid
              AbortReason.site_failed_after_write).sites
            (abort_transaction s tid
              AbortReason.site_failed_after_write).variable_commit_history
          rw [abort_transaction_sites, abort_transaction_history]
          exact h
        · split
          · show versions_registered (abort_transaction s tid
                AbortReason.first_committer_wins).sites
              (abort_transaction s tid
                AbortReason.first_committer_wins).variable_commit_history
            rw [abort_transaction_sites, abort_transaction_history]
            exact h
          · split
            · show versions_registered (abort_transaction s tid
                  AbortReason.ssi_dangerous_cycle).sites
                (abort_transaction s tid
                  AbortReason.ssi_dangerous_cycle).variable_commit_history
              rw [abort_transaction_sites, abort_transaction_history]
              exact h
            · exact commit_transaction_registered s tid h

/-- `TransactionManager.read` never touches the commit history. -/
theorem tm_read_history (s : TMState) (tid : String) (v : Nat) :
    (tm_read s tid v).2.variable_commit_history = s.variable_commit_history := by
  unfold tm_read
  split
  · rfl
  · split
    · rfl
    · split
      · rfl
      · split
        · rfl
        · dsimp only
          split
          · rfl
          · split
            · split
              · exact abort_transaction_history s tid AbortReason.no_valid_replica
              · rfl
            · rfl

/-- `TransactionManager.write` never touches the commit history. -/
theorem tm_write_history (s : TMState) (tid : String) (v : Nat) (value : Int) :
    (tm_write s tid v value).variable_commit_history =
      s.variable_commit_history := by
  unfold tm_write
  split
  · rfl
  · split
    · rfl
    · dsimp only
      split
      · rfl
      · rfl

/-- The waiting-queue walk never touches the commit history. -/
theorem pwg_history :
    ∀ (ops : List WaitingOperation) (s : TMState) (kept : List WaitingOperation),
      (process_waiting_go s ops kept).1.variable_commit_history =
        s.variable_commit_history := by
  intro ops
  induction ops with
  | nil => intro s kept; rfl
  | cons op rest ih =>
    intro s kept
    unfold process_waiting_go
    split
    · dsimp only
      split
      · rw [ih]
        exact try_read_history s op.transaction_id op.variable_name
      · rw [ih]
        exact try_read_history s op.transaction_id op.variable_name
    · exact ih s kept

/-- `_process_waiting_operations` never touches the commit history. -/
theorem pwo_history (s : TMState) :
    (process_waiting_operations s).variable_commit_history =
      s.variable_commit_history :=
  pwg_history s.waiting_operations s []

/-- Failing a site keeps versions registered (its variables are
untouched). -/
theorem fail_registered {site : Site} {now : Nat}
    {hist : List (Nat × List (Nat × String))}
    (h : ∀ var ∈ site.vars, ∀ ver ∈ var.versions,
      ver.transaction_id = "init" ∨
        (ver.commit_time, ver.transaction_id) ∈ (alookup hist var.index).getD []) :
    ∀ var ∈ (site.fail now).vars, ∀ ver ∈ var.versions,
      ver.transaction_id = "init" ∨
        (ver.commit_time, ver.transaction_id) ∈ (alookup hist var.index).getD [] :=
  h

/-- Recovering a site keeps versions registered (only readability flags
change). -/
theorem recover_registered {site : Site} {now : Nat}
    {hist : List (Nat × List (Nat × String))}
    (h : ∀ var ∈ site.vars, ∀ ver ∈ var.versions,
      ver.transaction_id = "init" ∨
        (ver.commit_time, ver.transaction_id) ∈ (alookup hist var.index).getD []) :
    ∀ var ∈ (site.recover now).vars, ∀ ver ∈ var.versions,
      ver.transaction_id = "init" ∨
        (ver.commit_time, ver.transaction_id) ∈ (alookup hist var.index).getD [] := by
  intro var hv ver hver
  rcases List.mem_map.mp hv with ⟨w, hw, rfl⟩
  by_cases hwi : w.index % 2 = 0
  · rw [if_pos hwi] at hver ⊢
    exact h w hw ver hver
  · rw [if_neg hwi] at hver ⊢
    exact h w hw ver hver

/-- Dispatching any command keeps versions registered. -/
theorem dispatch_registered (s : TMState) (c : Command)
    (h : versions_registered s.sites s.variable_commit_history) :
    versions_registered (dispatch s c).sites
      (dispatch s c).variable_commit_history := by
  cases c with
  | begin_txn tid => exact h
  | read_cmd tid v =>
    show versions_registered (tm_read s tid v).2.sites
      (tm_read s tid v).2.variable_commit_history
    rw [tm_read_sites, tm_read_history]
    exact h
  | write_cmd tid v value =>
    show versions_registered (tm_write s tid v value).sites
      (tm_write s tid v value).variable_commit_history
    rw [tm_write_sites, tm_write_history]
    exact h
  | end_txn tid => exact end_transaction_registered s tid h
  | fail_cmd sid =>
    show versions_registered (tm_fail_site s sid).sites
      (tm_fail_site s sid).variable_commit_history
    unfold tm_fail_site
    split
    · intro site hs
      rcases List.mem_map.mp hs with ⟨w, hw, rfl⟩
      by_cases hid : w.site_id = sid
      · rw [if_pos hid]
        exact fail_registered (h w hw)
      · rw [if_neg hid]
        exact h w hw
    · exact h
  | recover_cmd sid =>
    show versions_registered (tm_recover_site s sid).sites
      (tm_recover_site s sid).variable_commit_history
    unfold tm_recover_site
    dsimp only
    rw [pwo_sites, pwo_history]
    split
    · intro site hs
      rcases List.mem_map.mp hs with ⟨w, hw, rfl⟩
      by_cases hid : w.site_id = sid
      · rw [if_pos hid]
        exact recover_registered (h w hw)
      · rw [if_neg hid]
        exact h w hw
    · exact h
  | dump_cmd => exact h

/-- One command-loop step keeps versions registered. -/
theorem registered_step (s : TMState) (c : Command)
    (h : versions_registered s.sites s.variable_commit_history) :
    versions_registered (step s c).sites (step s c).variable_commit_history :=
  dispatch_registered { s with current_time := s.current_time + 1 } c h

/-- Versions are registered in the initial state: every version is the
seed. -/
theorem registered_initial :
    versions_registered initial_state.sites
      initial_state.variable_commit_history := by
  unfold versions_registered
  decide

theorem registered_run_from (cmds : List Command) :
    ∀ (s : TMState), versions_registered s.sites s.variable_commit_history →
      versions_registered (run_from s cmds).sites
        (run_from s cmds).variable_commit_history := by
  induction cmds with
  | nil => intro s h; exact h
  | cons c rest ih => intro s h; exact ih _ (registered_step s c h)

/-- Versions are registered in every reachable state. -/
theorem registered_run (cmds : List Command) :
    versions_registered (run cmds).sites (run cmds).variable_commit_history :=
  registered_run_from cmds initial_state registered_initial

/-- C1: the claim fails on the buffered-write path of
`TransactionManager.read`: after `begin(T1); W(T1,x1,999)` the read
`R(T1,x1)` returns 999, although every version of x1 stored at any site
still has the initial value 10 — the returned value is no stored
version at all, let alone one committed before T1 began. -/
theorem C1_counterexample :
    (tm_read (run [Command.begin_txn "T1", Command.write_cmd "T1" 1 999])
        "T1" 1).1 = some 999 ∧
    ((run [Command.begin_txn "T1", Command.write_cmd "T1" 1 999]).sites.all
      (fun site => match site.lookup_variable 1 with
        | some var => var.versions.all (fun ver => decide (ver.value = 10))
        | none => true)) = true :=
  ⟨by decide, by decide⟩

/-- C1 (amended): a read that actually consults the sites (no hit in the
transaction's own write buffer or read cache) returns the value of a
version stored at an up site, committed at or before the reader's start
time, whose writer is the initial seed or has a commit record at exactly
that time in the commit history.  The unamended claim fails on the
read-own-write and read-cache paths (see the counterexample). -/
theorem C1_snapshot_read_amended (cmds : List Command) (tid : String) (v : Nat)
    (txn : Transaction) (value : Int)
    (hlook : alookup (run cmds).transactions tid = some txn)
    (hstat : ¬ txn.status = TransactionStatus.aborted)
    (hws : alookup txn.write_set v = none)
    (hrs : alookup txn.read_set v = none)
    (hval : (tm_read (run cmds) tid v).1 = some value) :
    ∃ site ∈ (run cmds).sites, site.is_up = true ∧
      ∃ var, site.lookup_variable v = some var ∧
        ∃ ver ∈ var.versions, ver.value = value ∧
          ver.commit_time ≤ txn.start_time ∧
          (ver.transaction_id = "init" ∨
            (ver.commit_time, ver.transaction_id) ∈
              (alookup (run cmds).variable_commit_history v).getD []) := by
  have hreg := registered_run cmds
  unfold tm_read at hval
  rw [hlook] at hval
  dsimp only at hval
  rw [if_neg hstat, hws] at hval
  dsimp only at hval
  rw [hrs] at hval
  dsimp only at hval
  split at hval
  · rename_i sid value0 tail heq
    have hv0 : value0 = value := Option.some.inj hval
    have hmem : (sid, value0) ∈ (sites_for_variable v).filterMap (fun sid =>
        match get_site (run cmds).sites sid with
        | some site =>
          if site.is_up then
            match site.can_read_variable v txn.start_time with
            | (true, some value) => some (sid, value)
            | _ => none
          else none
        | none => none) := by
      rw [heq]
      exact List.mem_cons_self _ _
    rcases List.mem_filterMap.mp hmem with ⟨sid0, hsid0, hf⟩
    cases hg : get_site (run cmds).sites sid0 with
    | none =>
      rw [hg] at hf
      cases hf
    | some site =>
      rw [hg] at hf
      dsimp only at hf
      split at hf
      · rename_i hup
        split at hf
        · rename_i value1 heq2
          injection hf with hf1
          have hv1 : value1 = value0 := congrArg Prod.snd hf1
          rcases can_read_some_version site v txn.start_time value1 heq2 with
            ⟨var, hvar, ver, hverm, hle, hvv⟩
          have hsmem : site ∈ (run cmds).sites := List.mem_of_find?_eq_some hg
          have hvmem : var ∈ site.vars := List.mem_of_find?_eq_some hvar
          have hfind : site.vars.find? (fun w => decide (w.index = v)) =
              some var := hvar
          have hpi := List.find?_some hfind
          have hidx : var.index = v := of_decide_eq_true hpi
          refine ⟨site, hsmem, hup, var, hvar, ver, hverm, ?_, hle, ?_⟩
          · rw [hvv, hv1, hv0]
          · rcases hreg site hsmem var hvmem ver hverm with h' | h'
            · exact Or.inl h'
            · right
              rw [← hidx]
              exact h'
        · exact Option.noConfusion hf
      · exact Option.noConfusion hf
  · split at hval
    · split at hval
      · exact Option.noConfusion hval
      · exact Option.noConfusion hval
    · exact Option.noConfusion hval

/-- The amended C1 theorem at a concrete input: right after `begin(T1)`,
`R(T1,x2)` consults the sites and indeed returns the seed version 20 of
x2, committed at time 0 before T1 started. -/
theorem C1_witness :
    ∃ site ∈ (run [Command.begin_txn "T1"]).sites, site.is_up = true ∧
      ∃ var, site.lookup_variable 2 = some var ∧
        ∃ ver ∈ var.versions, ver.value = 20 ∧
          ver.commit_time ≤
            (⟨"T1", 1, TransactionStatus.active, [], [], [], [], [], [],
              none, none⟩ : Transaction).start_time ∧
          (ver.transaction_id = "init" ∨
            (ver.commit_time, ver.transaction_id) ∈
              (alookup (run [Command.begin_txn "T1"]).variable_commit_history
                2).getD []) :=
  C1_snapshot_read_amended [Command.begin_txn "T1"] "T1" 2
    ⟨"T1", 1, TransactionStatus.active, [], [], [], [], [], [], none, none⟩ 20
    (by decide) (by decide) (by decide) (by decide) (by decide)
